import Mathlib

/-!
Verification development for the Orion research pipeline
(`src/orion_framework.py`).

The Python file drives a multi-stage research pipeline over a Supabase
store: a Planner expands one report into research questions, Gatherer
workers claim and resolve pending questions, a Scorer aggregates evidence
into a score once no question of a report is still pending, and a
Narrator turns a scored report into a narrative.

The store tables (`reports`, `research_questions`, `evidence_items`,
`index_scores`, `published_content`) are embedded as Lean lists inside a
`Store` structure, and every table operation performed by the Python code
is a pure function on `Store`.  The Postgres RPC functions invoked by the
Python code (`create_new_report`, `get_next_unanswered_question`,
`get_next_report_for_synthesis`, `get_all_evidence_for_report`) are not
part of the repository sources, so they are modelled from the
specification; each such definition carries a doc comment saying so.
The OpenAI chat-completion calls are abstracted as oracle functions
returning `Option` results: `none` models an API error or an unparsable
response, exactly the cases in which the Python helper methods return
`None` or an empty list.
-/

namespace Orion

/-- Status of a research question row, per the specification data model:
PENDING on insertion, then exactly one of the three terminal statuses
written by the Gatherer. -/
inductive QStatus
  | PENDING
  | COMPLETE
  | RESEARCH_FAILED
  | SAVE_FAILED
deriving DecidableEq

/-- Status of a report row, per the specification data model. -/
inductive RStatus
  | PLANNING
  | PLAN_FAILED
  | RESEARCHING
  | SCORING_FAILED
  | REVIEW
  | COMPLETE
deriving DecidableEq

/-- Row of the `research_questions` table.  The `claimed` flag models the
row having been handed out by the atomic claim RPC (spec section 5: the
claim operation transitions the row out of the claimable state in the
same operation, while the status column itself is only written by the
Gatherer after processing). -/
structure Question where
  id : Nat
  report_id : Nat
  question : String
  status : QStatus
  claimed : Bool
deriving DecidableEq

/-- Row of the `reports` table. -/
structure Report where
  id : Nat
  country_name : String
  pillar_id : Nat
  status : RStatus
deriving DecidableEq

/-- Row of the `evidence_items` table, as built by `GathererAgent.run`:
the parsed oracle evidence with the `question` key removed and a
`question_id` key added. -/
structure EvidenceItem where
  question_id : Nat
  answer_summary : String
  key_findings : List String
  sources : List String
deriving DecidableEq

/-- Row of the `index_scores` table, as inserted by `ScoringAgent.run`. -/
structure Score where
  report_id : Nat
  country_name : String
  final_score : String
  score_data : String
deriving DecidableEq

/-- Row of the `published_content` table, as upserted by
`NarrativeAgent.run`. -/
structure Narrative where
  report_id : Nat
  final_article_text : String
deriving DecidableEq

/-- The shared backing store: one list per table used by the pipeline. -/
structure Store where
  reports : List Report
  questions : List Question
  evidence_items : List EvidenceItem
  index_scores : List Score
  published_content : List Narrative
deriving DecidableEq

/-- Store with all tables empty. -/
def emptyStore : Store := ⟨[], [], [], [], []⟩

/-- The fixed research taxonomy, copied verbatim from the METHODOLOGY
constant of `src/orion_framework.py`: six dimensions of ten sub-points
each. -/
def METHODOLOGY : List (String × List String) := [
  ("Legal Protections", [
    "Constitutional protections and equality provisions", "Anti-discrimination laws (employment, housing, services, education)",
    "Marriage and civil union recognition", "Adoption and parenting rights", "Gender recognition procedures and requirements",
    "Hate crime legislation and enforcement", "Military service policies", "Healthcare access protections",
    "Blood donation policies", "Asylum and refugee protections"]),
  ("Social Attitudes", [
    "Public opinion polling on LGBTQ+ acceptance", "Religious and cultural attitudes", "Media representation and visibility",
    "Pride celebration safety and participation", "Public displays of affection acceptance", "Workplace inclusion attitudes",
    "Educational environment safety", "Family acceptance rates", "Generational attitude differences", "Urban vs. rural acceptance variations"]),
  ("Healthcare Access", [
    "General healthcare system quality and accessibility", "LGBTQ+-affirming provider availability and training",
    "Gender-affirming care access and coverage", "Mental health services for LGBTQ+ individuals",
    "HIV/AIDS prevention, testing, and treatment", "Sexual health services and education", "Insurance coverage for LGBTQ+-related care",
    "Conversion therapy bans and protections", "Emergency healthcare non-discrimination", "Reproductive health access for LGBTQ+ individuals"]),
  ("Physical Safety", [
    "Hate crime rates and reporting", "Police responsiveness and competency", "General crime rates and safety conditions",
    "Domestic violence protections and services", "Safe spaces and community centers", "School safety and anti-bullying policies",
    "Workplace harassment protections", "Public transportation safety", "Tourism safety for LGBTQ+ visitors", "Emergency response effectiveness"]),
  ("Economic Opportunities", [
    "Workplace discrimination protections", "Economic inclusion initiatives", "LGBTQ+ business support and networking",
    "Access to financial services", "Housing discrimination protections", "Educational opportunity equality",
    "Professional advancement barriers", "Entrepreneurship support", "Government employment policies", "Corporate diversity and inclusion"]),
  ("Community Support", [
    "LGBTQ+ organization presence and strength", "Community center availability", "Support group accessibility",
    "Advocacy organization effectiveness", "Peer support network strength", "Online community access and safety",
    "Intergenerational support systems", "Crisis intervention services", "Cultural and social event availability",
    "Volunteer and activism opportunities"])]

/-- Largest element of a list of identifiers, zero when empty; used to
allocate fresh row identifiers. -/
def maxId (l : List Nat) : Nat := l.foldr max 0

/-- Modelled from the spec: the `create_new_report` Postgres RPC is not
in the repository sources; per section 4.1 it atomically creates one
Report row with status PLANNING and returns its id.  A fresh id is
allocated as one past the largest existing report id. -/
def create_new_report (s : Store) (country : String) (pillar : Nat) : Store × Nat :=
  let rid := maxId (s.reports.map Report.id) + 1
  ({ s with reports := s.reports ++ [⟨rid, country, pillar, RStatus.PLANNING⟩] }, rid)

/-- Update of the `reports` table: set the status of every row with the
given id, the embedding of
`supabase.table(reports).update(status).eq(id, rid)`. -/
def updR : List Report → Nat → RStatus → List Report
  | [], _, _ => []
  | r :: rs, rid, st => (if r.id = rid then { r with status := st } else r) :: updR rs rid st

/-- Store-level wrapper of `updR`. -/
def updateReportStatus (s : Store) (rid : Nat) (st : RStatus) : Store :=
  { s with reports := updR s.reports rid st }

/-- Update of the `research_questions` table: set the status of every
row with the given id. -/
def updQ : List Question → Nat → QStatus → List Question
  | [], _, _ => []
  | q :: qs, qid, st => (if q.id = qid then { q with status := st } else q) :: updQ qs qid st

/-- Store-level wrapper of `updQ`. -/
def updateQuestionStatus (s : Store) (qid : Nat) (st : QStatus) : Store :=
  { s with questions := updQ s.questions qid st }

/-- One freshly inserted question row per question string; the status
column is PENDING, the store default stated by the specification (the
Python insert passes only `report_id` and `question`). -/
def mkQuestions (rid : Nat) (startId : Nat) : List String → List Question
  | [] => []
  | t :: ts => ⟨startId, rid, t, QStatus.PENDING, false⟩ :: mkQuestions rid (startId + 1) ts

/-- Bulk insert into `research_questions`, the embedding of the
`insert([...])` call of `PlannerAgent.run`. -/
def insertQuestions (s : Store) (rid : Nat) (ts : List String) : Store :=
  { s with questions := s.questions ++ mkQuestions rid (maxId (s.questions.map Question.id) + 1) ts }

/-- A question row is claimable when it is PENDING and not yet handed
out by the claim RPC. -/
def isClaimable (q : Question) : Bool := q.status == QStatus.PENDING && !q.claimed

/-- Question row marked as handed out. -/
def setClaimed (q : Question) : Question := { q with claimed := true }

/-- Modelled from the spec: the `get_next_unanswered_question` Postgres
RPC is not in the repository sources; per section 5 it is a single
atomic operation that selects one claimable row, transitions it out of
the claimable state in the same operation, and returns it. -/
def claimNextQ : List Question → Option Question × List Question
  | [] => (none, [])
  | q :: qs =>
    if isClaimable q then
      (some q, setClaimed q :: qs)
    else
      ((claimNextQ qs).1, q :: (claimNextQ qs).2)

/-- Store-level wrapper of `claimNextQ`. -/
def get_next_unanswered_question (s : Store) : Option Question × Store :=
  ((claimNextQ s.questions).1, { s with questions := (claimNextQ s.questions).2 })

/-- Insert into `evidence_items`.  The Python code checks
`save_response.data` after the insert, so the embedding takes the
outcome of the persistence attempt as a flag: on failure nothing is
stored. -/
def insertEvidenceItem (s : Store) (e : EvidenceItem) (ok : Bool) : Store :=
  if ok then { s with evidence_items := s.evidence_items ++ [e] } else s

/-- Barrier predicate of the fan-in stage: no question owned by the
report is still PENDING. -/
def barrierSatisfied (s : Store) (rid : Nat) : Bool :=
  !(s.questions.any (fun q => q.report_id == rid && q.status == QStatus.PENDING))

/-- Modelled from the spec: the `get_next_report_for_synthesis` Postgres
RPC is not in the repository sources; per section 4.3 it claims one
report whose status is RESEARCHING and whose question set has zero
PENDING rows. -/
def get_next_report_for_synthesis (s : Store) : Option Report :=
  s.reports.find? (fun r => r.status == RStatus.RESEARCHING && barrierSatisfied s r.id)

/-- Modelled from the spec: the `get_all_evidence_for_report` Postgres
RPC is not in the repository sources; per sections 4.3 and 6 it returns
the evidence items of all questions owned by the report. -/
def get_all_evidence_for_report (s : Store) (rid : Nat) : List EvidenceItem :=
  s.evidence_items.filter (fun e => s.questions.any (fun q => q.id == e.question_id && q.report_id == rid))

/-- Upsert into `published_content` keyed by `report_id`, the embedding
of the `upsert(..., on_conflict=report_id)` call of
`NarrativeAgent.run`: replace the row of this report when one exists,
insert otherwise. -/
def replaceN : List Narrative → Nat → String → List Narrative
  | [], _, _ => []
  | n :: ns, rid, text => (if n.report_id = rid then { n with final_article_text := text } else n) :: replaceN ns rid text

/-- Upsert into `published_content` keyed by `report_id`: replace the
rows of this report when one exists, insert otherwise. -/
def upsN (l : List Narrative) (rid : Nat) (text : String) : List Narrative :=
  if l.any (fun n => n.report_id == rid) then
    replaceN l rid text
  else
    l ++ [⟨rid, text⟩]

/-- Store-level wrapper of `upsN`. -/
def upsertNarrative (s : Store) (rid : Nat) (text : String) : Store :=
  { s with published_content := upsN s.published_content rid text }

namespace PlannerAgent

/-- Embedding of `PlannerAgent._generate_questions`: the oracle argument
abstracts the chat-completion call together with its JSON parsing, and
`none` models the exception branch, in which the method returns the
empty list. -/
def generate_questions (oracle : String → Option (List String)) (dimension : String) : List String :=
  (oracle dimension).getD []

/-- The accumulated question list of `PlannerAgent.run`: the Python loop
extends `all_questions` with the questions of each METHODOLOGY dimension
in order. -/
def plannerQuestions (oracle : String → Option (List String)) : List String :=
  METHODOLOGY.foldl (fun acc p => acc ++ generate_questions oracle p.1) []

/-- Embedding of `PlannerAgent.run`: create the report row, accumulate
questions over all dimensions, then either bulk-insert the questions
(non-empty case) or mark the report PLAN_FAILED (empty case).  The
Python success branch performs no report status update. -/
def run (oracle : String → Option (List String)) (country : String) (pillar_id : Nat) (s : Store) : Store :=
  let created := create_new_report s country pillar_id
  let all_questions := plannerQuestions oracle
  if all_questions.isEmpty then
    updateReportStatus created.1 created.2 RStatus.PLAN_FAILED
  else
    insertQuestions created.1 created.2 all_questions

end PlannerAgent

/-- Concatenation of the images of a list-valued function, in list
order; the shape of the accumulated question list built by the Planner
loop. -/
def concatAll {α β : Type} (f : α → List β) : List α → List β
  | [] => []
  | x :: xs => f x ++ concatAll f xs

/-- The Planner accumulation loop instrumented with an explicit call
log: the first component is the accumulated question list of
`PlannerAgent.run`, the second records, in order, each dimension for
which the loop invoked the oracle. -/
def plannerQuestionsLog (oracle : String → Option (List String)) : List String × List String :=
  METHODOLOGY.foldl
    (fun acc p => (acc.1 ++ PlannerAgent.generate_questions oracle p.1, acc.2 ++ [p.1])) ([], [])

/-- Sample Planner oracle returning one question for every dimension. -/
def planOracleW : String → Option (List String) :=
  fun _ => some ["What protections exist"]

/-- Sample Planner oracle failing on every dimension. -/
def failOracleW : String → Option (List String) := fun _ => none

/-- Sample country name used by concrete witnesses. -/
def countryW : String := "Testland"

/-- Sample dimension name used by concrete witnesses, the first
METHODOLOGY dimension. -/
def dimW : String := "Legal Protections"

/-- Parsed evidence returned by the Gatherer oracle, the JSON structure
requested by `GathererAgent._find_evidence`. -/
structure Evidence where
  answer_summary : String
  key_findings : List String
  sources : List String
deriving DecidableEq

/-- Environment of one Gatherer worker: `find_evidence` abstracts
`GathererAgent._find_evidence` (oracle call plus JSON parsing, `none` on
error), and `save_ok` gives the outcome of the evidence insert for a
question id (whether `save_response.data` is non-empty). -/
structure GEnv where
  find_evidence : String → Option Evidence
  save_ok : Nat → Bool

namespace GathererAgent

/-- Body of one Gatherer loop iteration after a successful claim,
translated from `GathererAgent.run`: on parsed evidence, attempt the
insert and mark the question COMPLETE or SAVE_FAILED by the insert
outcome; on oracle failure mark it RESEARCH_FAILED. -/
def resolve (env : GEnv) (q : Question) (s : Store) : Store :=
  match env.find_evidence q.question with
  | some ev =>
    if env.save_ok q.id then
      updateQuestionStatus (insertEvidenceItem s ⟨q.id, ev.answer_summary, ev.key_findings, ev.sources⟩ true) q.id QStatus.COMPLETE
    else
      updateQuestionStatus (insertEvidenceItem s ⟨q.id, ev.answer_summary, ev.key_findings, ev.sources⟩ false) q.id QStatus.SAVE_FAILED
  | none => updateQuestionStatus s q.id QStatus.RESEARCH_FAILED

/-- One pass of the Gatherer loop: one claim attempt, then either exit
(no work) or resolution of the claimed question. -/
def iteration (env : GEnv) (s : Store) : Store :=
  match (get_next_unanswered_question s).1 with
  | none => (get_next_unanswered_question s).2
  | some q => resolve env q (get_next_unanswered_question s).2

/-- Number of claimable question rows, the termination measure of the
Gatherer loop. -/
def claimableCount (s : Store) : Nat := (s.questions.filter isClaimable).length

/-- Embedding of `GathererAgent.run`: loop claiming one question at a
time until a claim attempt returns no work.  The loop is total because
each successful claim removes one row from the claimable set and
resolution never makes a row claimable again. -/
def run (env : GEnv) (s : Store) : Store :=
  match h : (get_next_unanswered_question s).1 with
  | none => (get_next_unanswered_question s).2
  | some q => run env (resolve env q (get_next_unanswered_question s).2)
termination_by claimableCount s
decreasing_by
  have hclaim : ∀ (l : List Question) (q : Question), (claimNextQ l).1 = some q →
      ((claimNextQ l).2.filter isClaimable).length + 1 = (l.filter isClaimable).length := by
    intro l
    induction l with
    | nil => intro q hq; simp [claimNextQ] at hq
    | cons a as ih =>
      intro q hq
      by_cases hc : isClaimable a
      · simp only [claimNextQ, hc, if_pos] at hq ⊢
        have : isClaimable (setClaimed a) = false := by
          simp [isClaimable, setClaimed]
        simp [List.filter, this, hc]
      · simp only [claimNextQ, hc, if_neg, Bool.false_eq_true, not_false_iff] at hq ⊢
        have := ih q hq
        simp [List.filter, hc, this]
  have hupd : ∀ (l : List Question) (qid : Nat) (st : QStatus), st ≠ QStatus.PENDING →
      ((updQ l qid st).filter isClaimable).length ≤ (l.filter isClaimable).length := by
    intro l qid st hst
    induction l with
    | nil => simp [updQ]
    | cons a as ih =>
      by_cases hid : a.id = qid
      · have hhead : ∀ (i r : Nat) (t : String) (c : Bool), isClaimable ⟨i, r, t, st, c⟩ = false := by
          intro i r t c
          simp [isClaimable, hst]
        by_cases hc : isClaimable a
        · simp [updQ, hid, List.filter_cons, hhead, hc]
          omega
        · simp [updQ, hid, List.filter_cons, hhead, hc]
          omega
      · by_cases hc : isClaimable a
        · simp [updQ, hid, List.filter_cons, hc]
          omega
        · simp [updQ, hid, List.filter_cons, hc]
          omega
  have h1 := hclaim s.questions q h
  have hresolve : claimableCount (resolve env q (get_next_unanswered_question s).2) ≤
      claimableCount (get_next_unanswered_question s).2 := by
    unfold resolve
    cases env.find_evidence q.question with
    | none =>
      simpa [claimableCount, updateQuestionStatus] using
        hupd (get_next_unanswered_question s).2.questions q.id QStatus.RESEARCH_FAILED (by simp)
    | some ev =>
      by_cases hs : env.save_ok q.id
      · simpa [hs, claimableCount, updateQuestionStatus, insertEvidenceItem] using
          hupd (get_next_unanswered_question s).2.questions q.id QStatus.COMPLETE (by simp)
      · simpa [hs, claimableCount, updateQuestionStatus, insertEvidenceItem] using
          hupd (get_next_unanswered_question s).2.questions q.id QStatus.SAVE_FAILED (by simp)
  have h2 : claimableCount (get_next_unanswered_question s).2 + 1 = claimableCount s := by
    simpa [claimableCount, get_next_unanswered_question] using h1
  omega

end GathererAgent

/-- Parsed score card returned by the Scorer oracle, the JSON structure
requested by `ScoringAgent._generate_score_card`; the two fields read by
`ScoringAgent.run` are kept. -/
structure ScoreCard where
  overall_weighted_score : String
  score_matrix : String
deriving DecidableEq

namespace ScoringAgent

/-- Embedding of `ScoringAgent.run`: claim one barrier-satisfied report;
with no eligible report do nothing; with empty evidence mark the report
SCORING_FAILED; otherwise, by the oracle outcome, insert the score row
and mark the report REVIEW, or mark it SCORING_FAILED. -/
def run (oracle : Option ScoreCard) (s : Store) : Store :=
  match get_next_report_for_synthesis s with
  | none => s
  | some r =>
    if (get_all_evidence_for_report s r.id).isEmpty then
      updateReportStatus s r.id RStatus.SCORING_FAILED
    else
      match oracle with
      | some sc =>
        updateReportStatus
          { s with index_scores := s.index_scores ++ [⟨r.id, r.country_name, sc.overall_weighted_score, sc.score_matrix⟩] }
          r.id RStatus.REVIEW
      | none => updateReportStatus s r.id RStatus.SCORING_FAILED

end ScoringAgent

namespace NarrativeAgent

/-- Selection of the report to narrate, the embedding of the
`select.eq(status, REVIEW).limit(1)` query of `NarrativeAgent.run`. -/
def findReviewReport (s : Store) : Option Report :=
  s.reports.find? (fun r => r.status == RStatus.REVIEW)

/-- Score row of a report, the embedding of the score-card select of
`NarrativeAgent.run`. -/
def findScore (s : Store) (rid : Nat) : Option Score :=
  s.index_scores.find? (fun sc => sc.report_id == rid)

/-- Embedding of `NarrativeAgent.run`: claim one REVIEW report, fetch
its evidence and score card, and only when both are present and the
oracle produces a narrative, upsert the narrative and mark the report
COMPLETE; in every other case the store is left unchanged. -/
def run (oracle : Option String) (s : Store) : Store :=
  match findReviewReport s with
  | none => s
  | some r =>
    if !(get_all_evidence_for_report s r.id).isEmpty && (findScore s r.id).isSome then
      match oracle with
      | some text => updateReportStatus (upsertNarrative s r.id text) r.id RStatus.COMPLETE
      | none => s
    else s

end NarrativeAgent

/-- Observable report status: status of the first `reports` row with the
given id. -/
def reportStatus (s : Store) (rid : Nat) : Option RStatus :=
  (s.reports.find? (fun r => r.id == rid)).map Report.status

/-- Observable question status: status of the first `research_questions`
row with the given id. -/
def questionStatus (s : Store) (qid : Nat) : Option QStatus :=
  (s.questions.find? (fun q => q.id == qid)).map Question.status

/-- Observable narrative text of a report. -/
def narrativeText (s : Store) (rid : Nat) : Option String :=
  (s.published_content.find? (fun n => n.report_id == rid)).map Narrative.final_article_text

/-- Number of question rows whose status is PENDING. -/
def pendingCount (s : Store) : Nat :=
  (s.questions.filter (fun q => q.status == QStatus.PENDING)).length

/-- One pipeline stage operation, applied atomically to the shared
store: the step relation over which the cross-stage invariants are
stated.  Each constructor is one invocation (for the Gatherer, one loop
iteration) of the corresponding agent with an arbitrary oracle
behaviour. -/
inductive Step : Store → Store → Prop
  | plan (s : Store) (oracle : String → Option (List String)) (country : String) (pillar_id : Nat) :
      Step s (PlannerAgent.run oracle country pillar_id s)
  | gather (s : Store) (env : GEnv) :
      Step s (GathererAgent.iteration env s)
  | score (s : Store) (oracle : Option ScoreCard) :
      Step s (ScoringAgent.run oracle s)
  | narrate (s : Store) (oracle : Option String) :
      Step s (NarrativeAgent.run oracle s)

/-- Stores reachable from the empty store by a sequence of stage
operations. -/
inductive Reachable : Store → Prop
  | init : Reachable emptyStore
  | step (s s' : Store) : Reachable s → Step s s' → Reachable s'

/-- Barrier invariant of the section 3 data model: every score row only
coexists with questions of its report that are no longer PENDING. -/
def scoresBarrier (s : Store) : Prop :=
  ∀ sc ∈ s.index_scores, ∀ q ∈ s.questions, q.report_id = sc.report_id →
    q.status ≠ QStatus.PENDING

/-- Auxiliary invariant: every score row references an existing report. -/
def scoresValid (s : Store) : Prop :=
  ∀ sc ∈ s.index_scores, ∃ r ∈ s.reports, r.id = sc.report_id

/-- Invariant of claim C10: every report in REVIEW status has a score
row. -/
def reviewHasScore (s : Store) : Prop :=
  ∀ r ∈ s.reports, r.status = RStatus.REVIEW → ∃ sc ∈ s.index_scores, sc.report_id = r.id

/-- Allowed report status transitions, the edges of the section 4.6
state diagram; PLAN_FAILED and SCORING_FAILED have no outgoing edge. -/
def edgeOk : RStatus → RStatus → Bool
  | RStatus.PLANNING, RStatus.RESEARCHING => true
  | RStatus.PLANNING, RStatus.PLAN_FAILED => true
  | RStatus.RESEARCHING, RStatus.REVIEW => true
  | RStatus.RESEARCHING, RStatus.SCORING_FAILED => true
  | RStatus.REVIEW, RStatus.COMPLETE => true
  | _, _ => false

/-- Sample score card returned by the Scorer oracle in witnesses. -/
def cardW : ScoreCard := ⟨"82", "matrix"⟩

/-- Sample store ready for scoring: one RESEARCHING report whose single
question is COMPLETE with one evidence item. -/
def sC5 : Store :=
  ⟨[⟨1, "Atlantis", 3, RStatus.RESEARCHING⟩],
   [⟨1, 1, "What protections exist", QStatus.COMPLETE, true⟩],
   [⟨1, "summary", ["finding"], ["source"]⟩], [], []⟩

/-- Sample store ready for narration: one REVIEW report with evidence
and a score row. -/
def sC6 : Store :=
  ⟨[⟨1, "Atlantis", 3, RStatus.REVIEW⟩],
   [⟨1, 1, "What protections exist", QStatus.COMPLETE, true⟩],
   [⟨1, "summary", ["finding"], ["source"]⟩],
   [⟨1, "Atlantis", "82", "matrix"⟩], []⟩

/-- Sample narrative text used by concrete witnesses. -/
def textW : String := "narrative text"

/-- Sample claimable question row used by concrete witnesses. -/
def qW : Question := ⟨1, 1, "What protections exist", QStatus.PENDING, false⟩

/-- Sample store with one RESEARCHING report and one claimable PENDING
question, used by concrete witnesses. -/
def sW : Store := ⟨[⟨1, "Atlantis", 3, RStatus.RESEARCHING⟩], [qW], [], [], []⟩

/-- Sample parsed evidence used by concrete witnesses. -/
def evW : Evidence := ⟨"summary", ["finding"], ["source"]⟩

/-- Sample Gatherer environment whose oracle always succeeds and whose
evidence inserts always persist. -/
def envW : GEnv := ⟨fun _ => some evW, fun _ => true⟩

theorem le_maxId {l : List Nat} {x : Nat} (h : x ∈ l) : x ≤ maxId l := by
  induction l with
  | nil => cases h
  | cons a as ih =>
    rcases List.mem_cons.mp h with rfl | hmem
    · exact Nat.le_max_left _ _
    · exact Nat.le_trans (ih hmem) (Nat.le_max_right a (maxId as))

theorem maxId_succ_not_mem (l : List Nat) : maxId l + 1 ∉ l := by
  intro h
  exact absurd (le_maxId h) (by omega)

theorem find?_append_left_none {α : Type} {p : α → Bool} {l1 l2 : List α}
    (h : ∀ x ∈ l1, p x = false) : (l1 ++ l2).find? p = l2.find? p := by
  induction l1 with
  | nil => rfl
  | cons a as ih =>
    have ha := h a (List.mem_cons_self a as)
    simp only [List.cons_append, List.find?, ha]
    exact ih (fun x hx => h x (List.mem_cons_of_mem a hx))

theorem claimNextQ_fst_none {l : List Question} (h : (claimNextQ l).1 = none) :
    (claimNextQ l).2 = l ∧ ∀ q ∈ l, isClaimable q = false := by
  induction l with
  | nil => simp [claimNextQ]
  | cons a as ih =>
    by_cases hc : isClaimable a
    · simp [claimNextQ, hc] at h
    · simp only [claimNextQ, hc] at h ⊢
      simp only [Bool.false_eq_true, if_false] at h ⊢
      obtain ⟨h1, h2⟩ := ih h
      refine ⟨by rw [h1], ?_⟩
      intro q hq
      cases hq with
      | head => simpa using hc
      | tail _ hmem => exact h2 q hmem

theorem claimNextQ_none_of {l : List Question} (h : ∀ q ∈ l, isClaimable q = false) :
    claimNextQ l = (none, l) := by
  induction l with
  | nil => rfl
  | cons a as ih =>
    have ha := h a (List.mem_cons_self a as)
    have := ih (fun q hq => h q (List.mem_cons_of_mem a hq))
    simp [claimNextQ, ha, this]

theorem claimNextQ_fst_some {l : List Question} {q : Question}
    (h : (claimNextQ l).1 = some q) :
    isClaimable q = true ∧
    ∃ pre post, l = pre ++ q :: post ∧ (∀ x ∈ pre, isClaimable x = false) ∧
      (claimNextQ l).2 = pre ++ setClaimed q :: post := by
  induction l with
  | nil => simp [claimNextQ] at h
  | cons a as ih =>
    by_cases hc : isClaimable a
    · simp only [claimNextQ, hc, if_true] at h ⊢
      obtain rfl : a = q := by simpa using h
      exact ⟨hc, [], as, rfl, fun x hx => absurd hx (List.not_mem_nil x), rfl⟩
    · simp only [claimNextQ, hc] at h ⊢
      simp only [Bool.false_eq_true, if_false] at h ⊢
      obtain ⟨hq, pre, post, heq, hpre, hsnd⟩ := ih h
      refine ⟨hq, a :: pre, post, by simp [heq], ?_, by simp [hsnd]⟩
      intro x hx
      cases hx with
      | head => simpa using hc
      | tail _ hmem => exact hpre x hmem

theorem claimNextQ_count {l : List Question} {q : Question}
    (h : (claimNextQ l).1 = some q) :
    ((claimNextQ l).2.filter isClaimable).length + 1 = (l.filter isClaimable).length := by
  induction l with
  | nil => simp [claimNextQ] at h
  | cons a as ih =>
    by_cases hc : isClaimable a
    · have hset : isClaimable (setClaimed a) = false := by simp [isClaimable, setClaimed]
      simp [claimNextQ, hc, List.filter_cons, hset]
    · simp only [claimNextQ, hc] at h ⊢
      simp only [Bool.false_eq_true, if_false] at h ⊢
      simp [List.filter_cons, hc]
      exact ih h

theorem claimNextQ_singleton {l : List Question} {q : Question}
    (h : l.filter isClaimable = [q]) : (claimNextQ l).1 = some q := by
  induction l with
  | nil => simp at h
  | cons a as ih =>
    by_cases hc : isClaimable a
    · simp [List.filter_cons, hc] at h
      obtain ⟨rfl, h2⟩ := h
      simp [claimNextQ, hc]
    · simp [List.filter_cons, hc] at h
      simp only [claimNextQ, hc]
      simp only [Bool.false_eq_true, if_false]
      exact ih h

theorem claimNextQ_snd_ids (l : List Question) :
    (claimNextQ l).2.map Question.id = l.map Question.id := by
  induction l with
  | nil => rfl
  | cons a as ih =>
    by_cases hc : isClaimable a
    · simp [claimNextQ, hc, setClaimed]
    · simp only [claimNextQ, hc]
      simp only [Bool.false_eq_true, if_false, List.map_cons]
      rw [ih]

theorem claimNextQ_snd_mem {l : List Question} :
    ∀ q' ∈ (claimNextQ l).2, ∃ q ∈ l, q'.id = q.id ∧ q'.report_id = q.report_id ∧ q'.status = q.status := by
  induction l with
  | nil => simp [claimNextQ]
  | cons a as ih =>
    intro q' hq'
    by_cases hc : isClaimable a
    · simp only [claimNextQ, hc, if_true] at hq'
      cases hq' with
      | head => exact ⟨a, List.mem_cons_self a as, by simp [setClaimed]⟩
      | tail _ hmem => exact ⟨q', List.mem_cons_of_mem a hmem, rfl, rfl, rfl⟩
    · simp only [claimNextQ, hc] at hq'
      simp only [Bool.false_eq_true, if_false] at hq'
      cases hq' with
      | head => exact ⟨a, List.mem_cons_self a as, rfl, rfl, rfl⟩
      | tail _ hmem =>
        obtain ⟨q, hq, h1, h2, h3⟩ := ih q' hmem
        exact ⟨q, List.mem_cons_of_mem a hq, h1, h2, h3⟩

theorem updQ_ids (l : List Question) (qid : Nat) (st : QStatus) :
    (updQ l qid st).map Question.id = l.map Question.id := by
  induction l with
  | nil => rfl
  | cons a as ih =>
    by_cases hid : a.id = qid
    · simp [updQ, hid, ih]
    · simp [updQ, hid, ih]

theorem updQ_mem {l : List Question} {qid : Nat} {st : QStatus} :
    ∀ q' ∈ updQ l qid st, ∃ q ∈ l, q'.id = q.id ∧ q'.report_id = q.report_id ∧
      (q'.status = q.status ∨ q'.status = st) := by
  induction l with
  | nil => simp [updQ]
  | cons a as ih =>
    intro q' hq'
    simp only [updQ] at hq'
    cases hq' with
    | head =>
      by_cases hid : a.id = qid
      · refine ⟨a, List.mem_cons_self a as, ?_⟩
        simp [hid]
      · refine ⟨a, List.mem_cons_self a as, ?_⟩
        simp [hid]
    | tail _ hmem =>
      obtain ⟨q, hq, h1, h2, h3⟩ := ih q' hmem
      exact ⟨q, List.mem_cons_of_mem a hq, h1, h2, h3⟩

theorem findQ_updQ_self {l : List Question} {qid : Nat} {st : QStatus}
    (h : ∃ x ∈ l, x.id = qid) :
    ((updQ l qid st).find? (fun q => q.id == qid)).map Question.status = some st := by
  induction l with
  | nil => simp at h
  | cons a as ih =>
    by_cases hid : a.id = qid
    · simp [updQ, hid, List.find?]
    · have h' : ∃ x ∈ as, x.id = qid := by
        obtain ⟨x, hx, hxid⟩ := h
        cases hx with
        | head => exact absurd hxid hid
        | tail _ hmem => exact ⟨x, hmem, hxid⟩
      simp only [updQ, if_neg hid, List.find?]
      have : (a.id == qid) = false := by simpa using hid
      simp only [this]
      exact ih h'

theorem updQ_eq_of_none {l : List Question} {qid : Nat} {st : QStatus}
    (h : ∀ x ∈ l, x.id ≠ qid) : updQ l qid st = l := by
  induction l with
  | nil => rfl
  | cons a as ih =>
    have ha := h a (List.mem_cons_self a as)
    simp only [updQ, if_neg ha]
    rw [ih (fun x hx => h x (List.mem_cons_of_mem a hx))]

theorem updR_ids (l : List Report) (rid : Nat) (st : RStatus) :
    (updR l rid st).map Report.id = l.map Report.id := by
  induction l with
  | nil => rfl
  | cons a as ih =>
    by_cases hid : a.id = rid
    · simp [updR, hid, ih]
    · simp [updR, hid, ih]

theorem updR_shape (l : List Report) (rid : Nat) (st : RStatus) :
    ∀ r' ∈ updR l rid st, ∃ r0 ∈ l, r' = r0 ∨ (r' = { r0 with status := st } ∧ r0.id = rid) := by
  induction l with
  | nil => simp [updR]
  | cons a as ih =>
    intro r' hr'
    simp only [updR] at hr'
    cases hr' with
    | head =>
      by_cases hid : a.id = rid
      · simp only [if_pos hid]
        exact ⟨a, List.mem_cons_self a as, Or.inr ⟨rfl, hid⟩⟩
      · simp only [if_neg hid]
        exact ⟨a, List.mem_cons_self a as, Or.inl rfl⟩
    | tail _ hmem =>
      obtain ⟨r0, hr0, hor⟩ := ih r' hmem
      exact ⟨r0, List.mem_cons_of_mem a hr0, hor⟩

theorem updR_mem_rev (l : List Report) (rid : Nat) (st : RStatus) :
    ∀ r ∈ l, ∃ r' ∈ updR l rid st, r'.id = r.id := by
  induction l with
  | nil => simp
  | cons a as ih =>
    intro r hr
    rcases List.mem_cons.mp hr with rfl | hmem
    · by_cases hid : r.id = rid
      · exact ⟨{ r with status := st }, by simp [updR, hid], rfl⟩
      · exact ⟨r, by simp [updR, hid], rfl⟩
    · obtain ⟨r', hr', hid⟩ := ih r hmem
      refine ⟨r', ?_, hid⟩
      simp only [updR]
      exact List.mem_cons_of_mem _ hr'

theorem find?_append_left_some {α : Type} {p : α → Bool} {l1 l2 : List α} {a : α}
    (h : l1.find? p = some a) : (l1 ++ l2).find? p = some a := by
  induction l1 with
  | nil => simp [List.find?] at h
  | cons x xs ih =>
    simp only [List.find?, List.cons_append] at h ⊢
    cases hp : p x with
    | true => simp only [hp] at h ⊢; exact h
    | false => simp only [hp] at h ⊢; exact ih h

theorem nodup_snoc {l : List Nat} {x : Nat} (h : l.Nodup) (hx : x ∉ l) : (l ++ [x]).Nodup := by
  rw [List.nodup_append]
  refine ⟨h, List.nodup_singleton x, ?_⟩
  intro a ha hax
  rw [List.mem_singleton] at hax
  exact hx (hax ▸ ha)

theorem findR_updR_self {l : List Report} {rid : Nat} {st : RStatus}
    (h : ∃ x ∈ l, x.id = rid) :
    ((updR l rid st).find? (fun r => r.id == rid)).map Report.status = some st := by
  induction l with
  | nil => simp at h
  | cons a as ih =>
    by_cases hid : a.id = rid
    · simp [updR, hid, List.find?]
    · have h' : ∃ x ∈ as, x.id = rid := by
        obtain ⟨x, hx, hxid⟩ := h
        cases hx with
        | head => exact absurd hxid hid
        | tail _ hmem => exact ⟨x, hmem, hxid⟩
      simp only [updR, if_neg hid, List.find?]
      have : (a.id == rid) = false := by simpa using hid
      simp only [this]
      exact ih h'

theorem findR_updR_ne {l : List Report} {rid rid' : Nat} {st : RStatus}
    (h : rid' ≠ rid) :
    (updR l rid st).find? (fun r => r.id == rid') = l.find? (fun r => r.id == rid') := by
  induction l with
  | nil => rfl
  | cons a as ih =>
    by_cases hid : a.id = rid
    · have : (a.id == rid') = false := by
        simp [hid]
        exact fun hcon => absurd hcon.symm h
      simp only [updR, if_pos hid, List.find?, this]
      exact ih
    · simp only [updR, if_neg hid, List.find?]
      cases hfind : (a.id == rid') with
      | false => exact ih
      | true => rfl

theorem findR_mem_nodup {l : List Report} (hnodup : (l.map Report.id).Nodup)
    {r : Report} (hr : r ∈ l) : l.find? (fun x => x.id == r.id) = some r := by
  induction l with
  | nil => cases hr
  | cons a as ih =>
    cases hr with
    | head => simp [List.find?]
    | tail _ hmem =>
      have hne : a.id ≠ r.id := by
        intro hcon
        have : r.id ∈ as.map Report.id := List.mem_map_of_mem Report.id hmem
        rw [List.map_cons, List.nodup_cons] at hnodup
        exact hnodup.1 (hcon ▸ this)
      have : (a.id == r.id) = false := by simpa using hne
      simp only [List.find?, this]
      exact ih (by rw [List.map_cons, List.nodup_cons] at hnodup; exact hnodup.2) hmem

theorem mkQuestions_fields {rid sid : Nat} {ts : List String} :
    ∀ q ∈ mkQuestions rid sid ts, q.status = QStatus.PENDING ∧ q.report_id = rid ∧ q.claimed = false := by
  induction ts generalizing sid with
  | nil => simp [mkQuestions]
  | cons t ts ih =>
    intro q hq
    cases hq with
    | head => exact ⟨rfl, rfl, rfl⟩
    | tail _ hmem => exact ih q hmem

theorem barrier_iff {s : Store} {rid : Nat} :
    barrierSatisfied s rid = true ↔ ∀ q ∈ s.questions, q.report_id = rid → q.status ≠ QStatus.PENDING := by
  simp only [barrierSatisfied, Bool.not_eq_true', List.any_eq_false]
  constructor
  · intro h q hq hrep
    have := h q hq
    simp [hrep] at this
    simpa using this
  · intro h q hq
    by_cases hrep : q.report_id = rid
    · have := h q hq hrep
      simp [hrep]
      simpa using this
    · simp [hrep]

theorem findN_replaceN {l : List Narrative} {rid : Nat} {text : String}
    (h : l.any (fun n => n.report_id == rid) = true) :
    ((replaceN l rid text).find? (fun n => n.report_id == rid)).map Narrative.final_article_text = some text := by
  induction l with
  | nil => simp at h
  | cons a as ih =>
    by_cases hid : a.report_id = rid
    · simp [replaceN, hid, List.find?]
    · have h' : as.any (fun n => n.report_id == rid) = true := by
        simp only [List.any_cons] at h
        have : (a.report_id == rid) = false := by simpa using hid
        simpa [this] using h
      simp only [replaceN, if_neg hid, List.find?]
      have : (a.report_id == rid) = false := by simpa using hid
      simp only [this]
      exact ih h'

theorem findN_upsN (l : List Narrative) (rid : Nat) (text : String) :
    ((upsN l rid text).find? (fun n => n.report_id == rid)).map Narrative.final_article_text = some text := by
  by_cases hany : l.any (fun n => n.report_id == rid) = true
  · simp only [upsN, hany, if_true]
    exact findN_replaceN hany
  · have hfalse : l.any (fun n => n.report_id == rid) = false := by
      simpa using hany
    simp only [upsN, hfalse, Bool.false_eq_true, if_false]
    have hall : ∀ x ∈ l, (x.report_id == rid) = false := by
      intro x hx
      by_contra hcon
      apply hany
      simp only [List.any_eq_true]
      refine ⟨x, hx, ?_⟩
      simpa using hcon
    rw [find?_append_left_none hall]
    simp [List.find?]

theorem claim_store_eq_none {s : Store} (h : (get_next_unanswered_question s).1 = none) :
    (get_next_unanswered_question s).2 = s := by
  have h1 := (claimNextQ_fst_none (by simpa [get_next_unanswered_question] using h)).1
  show { s with questions := (claimNextQ s.questions).2 } = s
  rw [h1]

theorem claim_store_none_count {s : Store} (h : (get_next_unanswered_question s).1 = none) :
    GathererAgent.claimableCount s = 0 := by
  have h2 := (claimNextQ_fst_none (by simpa [get_next_unanswered_question] using h)).2
  have : s.questions.filter isClaimable = [] := by
    apply List.eq_nil_iff_forall_not_mem.mpr
    intro x hx
    have := List.mem_filter.mp hx
    rw [h2 x this.1] at this
    exact absurd this.2 (by simp)
  simp [GathererAgent.claimableCount, this]

theorem claim_store_count {s : Store} {q : Question}
    (h : (get_next_unanswered_question s).1 = some q) :
    GathererAgent.claimableCount (get_next_unanswered_question s).2 + 1 =
    GathererAgent.claimableCount s := by
  simpa [GathererAgent.claimableCount, get_next_unanswered_question] using
    claimNextQ_count (by simpa [get_next_unanswered_question] using h)

theorem updQ_claimable_le (l : List Question) (qid : Nat) (st : QStatus)
    (hst : st ≠ QStatus.PENDING) :
    ((updQ l qid st).filter isClaimable).length ≤ (l.filter isClaimable).length := by
  induction l with
  | nil => simp [updQ]
  | cons a as ih =>
    by_cases hid : a.id = qid
    · have hhead : ∀ (i r : Nat) (t : String) (c : Bool), isClaimable ⟨i, r, t, st, c⟩ = false := by
        intro i r t c
        simp [isClaimable, hst]
      by_cases hc : isClaimable a
      · simp [updQ, hid, List.filter_cons, hhead, hc]
        omega
      · simp [updQ, hid, List.filter_cons, hhead, hc]
        omega
    · by_cases hc : isClaimable a
      · simp [updQ, hid, List.filter_cons, hc]
        omega
      · simp [updQ, hid, List.filter_cons, hc]
        omega

theorem resolve_claimable_le (env : GEnv) (q : Question) (s : Store) :
    GathererAgent.claimableCount (GathererAgent.resolve env q s) ≤
    GathererAgent.claimableCount s := by
  unfold GathererAgent.resolve
  cases env.find_evidence q.question with
  | none =>
    simpa [GathererAgent.claimableCount, updateQuestionStatus] using
      updQ_claimable_le s.questions q.id QStatus.RESEARCH_FAILED (by simp)
  | some ev =>
    by_cases hs : env.save_ok q.id
    · simpa [hs, GathererAgent.claimableCount, updateQuestionStatus, insertEvidenceItem] using
        updQ_claimable_le s.questions q.id QStatus.COMPLETE (by simp)
    · simpa [hs, GathererAgent.claimableCount, updateQuestionStatus, insertEvidenceItem] using
        updQ_claimable_le s.questions q.id QStatus.SAVE_FAILED (by simp)

theorem gatherer_run_none {env : GEnv} {s : Store}
    (h : (get_next_unanswered_question s).1 = none) :
    GathererAgent.run env s = (get_next_unanswered_question s).2 := by
  rw [GathererAgent.run]
  split
  · rfl
  · rename_i q heq
    rw [h] at heq
    cases heq

theorem gatherer_run_some {env : GEnv} {s : Store} {q : Question}
    (h : (get_next_unanswered_question s).1 = some q) :
    GathererAgent.run env s =
    GathererAgent.run env (GathererAgent.resolve env q (get_next_unanswered_question s).2) := by
  rw [GathererAgent.run]
  split
  · rename_i heq
    rw [h] at heq
    cases heq
  · rename_i q2 heq
    rw [h] at heq
    cases heq
    rfl

theorem iteration_eq_none {env : GEnv} {s : Store}
    (h : (get_next_unanswered_question s).1 = none) :
    GathererAgent.iteration env s = (get_next_unanswered_question s).2 := by
  unfold GathererAgent.iteration
  rw [h]

theorem iteration_eq_some {env : GEnv} {s : Store} {q : Question}
    (h : (get_next_unanswered_question s).1 = some q) :
    GathererAgent.iteration env s =
    GathererAgent.resolve env q (get_next_unanswered_question s).2 := by
  unfold GathererAgent.iteration
  rw [h]

theorem run_claimable_zero (env : GEnv) :
    ∀ (n : Nat) (s : Store), GathererAgent.claimableCount s ≤ n →
      GathererAgent.claimableCount (GathererAgent.run env s) = 0 := by
  intro n
  induction n with
  | zero =>
    intro s hs
    cases hcl : (get_next_unanswered_question s).1 with
    | none =>
      rw [gatherer_run_none hcl, claim_store_eq_none hcl]
      have := claim_store_none_count hcl
      omega
    | some q =>
      have := claim_store_count hcl
      omega
  | succ n ih =>
    intro s hs
    cases hcl : (get_next_unanswered_question s).1 with
    | none =>
      rw [gatherer_run_none hcl, claim_store_eq_none hcl]
      exact claim_store_none_count hcl
    | some q =>
      rw [gatherer_run_some hcl]
      apply ih
      have h1 := claim_store_count hcl
      have h2 := resolve_claimable_le env q (get_next_unanswered_question s).2
      omega

theorem updQ_pendingCount {l : List Question} {qid : Nat} {st : QStatus}
    (hnodup : (l.map Question.id).Nodup) {x : Question} (hx : x ∈ l) (hid : x.id = qid)
    (hpend : x.status = QStatus.PENDING) (hst : st ≠ QStatus.PENDING) :
    ((updQ l qid st).filter (fun q => q.status == QStatus.PENDING)).length + 1 =
    (l.filter (fun q => q.status == QStatus.PENDING)).length := by
  induction l with
  | nil => cases hx
  | cons a as ih =>
    rw [List.map_cons, List.nodup_cons] at hnodup
    rcases List.mem_cons.mp hx with rfl | hmem
    · have hrest : updQ as qid st = as := by
        apply updQ_eq_of_none
        intro y hy hcon
        apply hnodup.1
        rw [hid, ← hcon]
        exact List.mem_map_of_mem Question.id hy
      simp [updQ, hid, List.filter_cons, hpend, hrest, hst]
    · by_cases hid2 : a.id = qid
      · exfalso
        apply hnodup.1
        rw [hid2, ← hid]
        exact List.mem_map_of_mem Question.id hmem
      · have ihh := ih hnodup.2 hmem
        by_cases hpa : a.status = QStatus.PENDING
        · simp only [updQ, if_neg hid2, List.filter_cons]
          simp [hpa] at ihh ⊢
          omega
        · simp only [updQ, if_neg hid2, List.filter_cons]
          simp [hpa] at ihh ⊢
          omega

theorem pending_claim_store {s : Store} {q : Question}
    (h : (get_next_unanswered_question s).1 = some q) :
    pendingCount (get_next_unanswered_question s).2 = pendingCount s := by
  obtain ⟨hcl, pre, post, hl, hpre, hsnd⟩ :=
    claimNextQ_fst_some (by simpa [get_next_unanswered_question] using h)
  show ((claimNextQ s.questions).2.filter (fun x => x.status == QStatus.PENDING)).length =
    (s.questions.filter (fun x => x.status == QStatus.PENDING)).length
  rw [hsnd]
  conv_rhs => rw [hl]
  by_cases hq : q.status = QStatus.PENDING
  · simp [List.filter_append, List.filter_cons, setClaimed, hq]
  · simp [List.filter_append, List.filter_cons, setClaimed, hq]

theorem resolve_pending {env : GEnv} {q : Question} {s : Store}
    (hnodup : (s.questions.map Question.id).Nodup)
    {x : Question} (hxm : x ∈ s.questions) (hxid : x.id = q.id)
    (hxp : x.status = QStatus.PENDING) :
    pendingCount (GathererAgent.resolve env q s) + 1 = pendingCount s := by
  unfold GathererAgent.resolve
  cases env.find_evidence q.question with
  | none =>
    simpa [pendingCount, updateQuestionStatus] using
      @updQ_pendingCount s.questions q.id QStatus.RESEARCH_FAILED hnodup x hxm hxid hxp (by simp)
  | some ev =>
    by_cases hs : env.save_ok q.id
    · simpa [hs, pendingCount, updateQuestionStatus, insertEvidenceItem] using
        @updQ_pendingCount s.questions q.id QStatus.COMPLETE hnodup x hxm hxid hxp (by simp)
    · simpa [hs, pendingCount, updateQuestionStatus, insertEvidenceItem] using
        @updQ_pendingCount s.questions q.id QStatus.SAVE_FAILED hnodup x hxm hxid hxp (by simp)

/-- C1: against a store whose only claimable PENDING question is q, two
successive claim calls (the atomic claims of two concurrent Gatherer
instances, serialized in either order by the atomicity of the claim
operation) give the question to exactly one caller: the first claim
returns q and transitions it out of the claimable state, so the second
claim returns no work. -/
theorem claim_next_exclusive (s : Store) (q : Question)
    (h : s.questions.filter isClaimable = [q]) :
    (get_next_unanswered_question s).1 = some q ∧
    (get_next_unanswered_question ((get_next_unanswered_question s).2)).1 = none := by
  have h1 : (claimNextQ s.questions).1 = some q := claimNextQ_singleton h
  have hcount := claimNextQ_count h1
  rw [h] at hcount
  have hzero : ((claimNextQ s.questions).2.filter isClaimable).length = 0 := by
    simpa using hcount
  have hnil : (claimNextQ s.questions).2.filter isClaimable = [] :=
    List.length_eq_zero.mp hzero
  have hall : ∀ x ∈ (claimNextQ s.questions).2, isClaimable x = false := by
    intro x hx
    by_contra hcon
    have hxf : x ∈ (claimNextQ s.questions).2.filter isClaimable :=
      List.mem_filter.mpr ⟨hx, by simpa using hcon⟩
    rw [hnil] at hxf
    cases hxf
  have h2 := claimNextQ_none_of hall
  refine ⟨h1, ?_⟩
  show (claimNextQ (claimNextQ s.questions).2).1 = none
  rw [h2]

/-- C1 witness: concrete two-claim race on a store holding a single
PENDING question. -/
theorem claim_next_exclusive_app :
    (get_next_unanswered_question sW).1 = some qW ∧
    (get_next_unanswered_question ((get_next_unanswered_question sW).2)).1 = none :=
  claim_next_exclusive sW qW (by rfl)

/-- C4: every claimed question reaches exactly one of three terminal
outcomes in that Gatherer iteration.  Oracle success with successful
persistence appends the evidence item and marks the question COMPLETE;
oracle success with failed persistence discards the evidence and marks
it SAVE_FAILED; oracle failure stores nothing and marks it
RESEARCH_FAILED. -/
theorem gatherer_outcomes (env : GEnv) (s : Store) (q : Question)
    (h : (get_next_unanswered_question s).1 = some q) :
    (∀ ev, env.find_evidence q.question = some ev → env.save_ok q.id = true →
      questionStatus (GathererAgent.iteration env s) q.id = some QStatus.COMPLETE ∧
      (GathererAgent.iteration env s).evidence_items =
        s.evidence_items ++ [⟨q.id, ev.answer_summary, ev.key_findings, ev.sources⟩]) ∧
    (∀ ev, env.find_evidence q.question = some ev → env.save_ok q.id = false →
      questionStatus (GathererAgent.iteration env s) q.id = some QStatus.SAVE_FAILED ∧
      (GathererAgent.iteration env s).evidence_items = s.evidence_items) ∧
    (env.find_evidence q.question = none →
      questionStatus (GathererAgent.iteration env s) q.id = some QStatus.RESEARCH_FAILED ∧
      (GathererAgent.iteration env s).evidence_items = s.evidence_items) := by
  have hiter := @iteration_eq_some env s q h
  obtain ⟨hcl, pre, post, hl, hpre, hsnd⟩ :=
    claimNextQ_fst_some (by simpa [get_next_unanswered_question] using h)
  have hmem : ∃ x ∈ (claimNextQ s.questions).2, x.id = q.id := by
    refine ⟨setClaimed q, ?_, rfl⟩
    rw [hsnd]
    exact List.mem_append_right pre (List.mem_cons_self _ _)
  have hev2 : ((get_next_unanswered_question s).2).evidence_items = s.evidence_items := rfl
  refine ⟨?_, ?_, ?_⟩
  · intro ev hev hsave
    rw [hiter]
    unfold GathererAgent.resolve
    rw [hev]
    simp only [hsave, if_true]
    constructor
    · exact findQ_updQ_self hmem
    · rfl
  · intro ev hev hsave
    rw [hiter]
    unfold GathererAgent.resolve
    rw [hev]
    simp only [hsave, Bool.false_eq_true, if_false]
    constructor
    · exact findQ_updQ_self hmem
    · rfl
  · intro hev
    rw [hiter]
    unfold GathererAgent.resolve
    rw [hev]
    constructor
    · exact findQ_updQ_self hmem
    · rfl

/-- C4 witness: concrete iteration with a successful oracle and a
successful persist, reaching the COMPLETE outcome. -/
theorem gatherer_outcomes_app :
    questionStatus (GathererAgent.iteration envW sW) 1 = some QStatus.COMPLETE ∧
    (GathererAgent.iteration envW sW).evidence_items =
      sW.evidence_items ++ [⟨1, "summary", ["finding"], ["source"]⟩] :=
  (gatherer_outcomes envW sW qW (by rfl)).1 evW rfl rfl

/-- C9: the Gatherer loop always terminates and drains the claimable
set: the final state of the (total, well-founded) loop has no claimable
question left; when a claim attempt returns no work the loop exits at
once with the store unchanged; and when the store has distinct question
ids, each iteration that claims a question terminally resolves exactly
that one question, strictly decreasing the PENDING count by one. -/
theorem gatherer_termination (env : GEnv) (s : Store) :
    GathererAgent.claimableCount (GathererAgent.run env s) = 0 ∧
    ((get_next_unanswered_question s).1 = none → GathererAgent.run env s = s) ∧
    (∀ q, (get_next_unanswered_question s).1 = some q →
      (s.questions.map Question.id).Nodup →
      pendingCount (GathererAgent.iteration env s) + 1 = pendingCount s) := by
  refine ⟨run_claimable_zero env (GathererAgent.claimableCount s) s (Nat.le_refl _), ?_, ?_⟩
  · intro h
    rw [gatherer_run_none h, claim_store_eq_none h]
  · intro q h hnodup
    have hiter := @iteration_eq_some env s q h
    obtain ⟨hcl, pre, post, hl, hpre, hsnd⟩ :=
      claimNextQ_fst_some (by simpa [get_next_unanswered_question] using h)
    have hq : q.status = QStatus.PENDING := by
      have := hcl
      simp [isClaimable] at this
      exact this.1
    have hnodup2 : (((get_next_unanswered_question s).2).questions.map Question.id).Nodup := by
      show ((claimNextQ s.questions).2.map Question.id).Nodup
      rw [claimNextQ_snd_ids]
      exact hnodup
    have hxm : setClaimed q ∈ ((get_next_unanswered_question s).2).questions := by
      show setClaimed q ∈ (claimNextQ s.questions).2
      rw [hsnd]
      exact List.mem_append_right pre (List.mem_cons_self _ _)
    have hres := @resolve_pending env q ((get_next_unanswered_question s).2) hnodup2 (setClaimed q) hxm rfl hq
    rw [hiter]
    rw [hres, pending_claim_store h]

/-- C9 witness: concrete run on a one-question store, checking the
drained final state and the per-iteration PENDING decrease. -/
theorem gatherer_termination_app :
    GathererAgent.claimableCount (GathererAgent.run envW sW) = 0 ∧
    pendingCount (GathererAgent.iteration envW sW) + 1 = pendingCount sW :=
  ⟨(gatherer_termination envW sW).1,
    (gatherer_termination envW sW).2.2 qW (by rfl) (by decide)⟩

theorem findR_append_fresh {l : List Report} {r : Report} (h : ∀ x ∈ l, x.id ≠ r.id) :
    (l ++ [r]).find? (fun x => x.id == r.id) = some r := by
  rw [find?_append_left_none (fun x hx => by simpa using h x hx)]
  simp [List.find?]

theorem fresh_report_id {s : Store} :
    ∀ x ∈ s.reports, x.id ≠ maxId (s.reports.map Report.id) + 1 := by
  intro x hx hcon
  have : x.id ≤ maxId (s.reports.map Report.id) :=
    le_maxId (List.mem_map_of_mem Report.id hx)
  omega

theorem foldl_append_concat {α β : Type} (f : α → List β) :
    ∀ (l : List α) (acc : List β), l.foldl (fun a x => a ++ f x) acc = acc ++ concatAll f l := by
  intro l
  induction l with
  | nil => intro acc; simp [concatAll]
  | cons x xs ih =>
    intro acc
    simp only [List.foldl_cons, concatAll]
    rw [ih (acc ++ f x), List.append_assoc]

theorem plannerQuestions_concat (oracle : String → Option (List String)) :
    PlannerAgent.plannerQuestions oracle =
    concatAll (fun p => PlannerAgent.generate_questions oracle p.1) METHODOLOGY := by
  simpa using
    foldl_append_concat (fun p => PlannerAgent.generate_questions oracle p.1) METHODOLOGY []

theorem foldl_log {g : String × List String → List String} :
    ∀ (l : List (String × List String)) (a b : List String),
      l.foldl (fun acc p => (acc.1 ++ g p, acc.2 ++ [p.1])) (a, b) =
      (a ++ concatAll g l, b ++ l.map Prod.fst) := by
  intro l
  induction l with
  | nil => intro a b; simp [concatAll]
  | cons x xs ih =>
    intro a b
    simp only [List.foldl_cons, concatAll, List.map_cons]
    rw [ih (a ++ g x) (b ++ [x.1]), List.append_assoc]
    simp

theorem concat_filter {α β : Type} (f : α → List β) (p : α → Bool) (l : List α)
    (h : ∀ x ∈ l, p x = false → f x = []) :
    concatAll f (l.filter p) = concatAll f l := by
  induction l with
  | nil => rfl
  | cons a as ih =>
    have ih2 := ih (fun x hx => h x (List.mem_cons_of_mem a hx))
    cases hp : p a with
    | true => simp [List.filter_cons, hp, concatAll, ih2]
    | false =>
      simp [List.filter_cons, hp, concatAll, ih2, h a (List.mem_cons_self a as) hp]

/-- C3 counterexample: with an oracle producing one question per
dimension, the accumulated question list is non-empty and the Planner
run leaves the report in status PLANNING; it does not set RESEARCHING
as the claim states. -/
theorem planner_no_researching :
    PlannerAgent.plannerQuestions planOracleW ≠ [] ∧
    reportStatus (PlannerAgent.run planOracleW countryW 3 emptyStore) 1 = some RStatus.PLANNING ∧
    reportStatus (PlannerAgent.run planOracleW countryW 3 emptyStore) 1 ≠ some RStatus.RESEARCHING := by
  refine ⟨by decide, by rfl, by decide⟩

/-- C3 amended: after a Planner run, when the accumulated question list
is empty the report is marked PLAN_FAILED and no question is inserted;
when it is non-empty all accumulated questions are bulk-inserted with
status PENDING under the new report, and the report status is left
unchanged at PLANNING (the Python success branch performs no report
status update; any transition to RESEARCHING would have to happen
inside the store, not in the Planner). -/
theorem planner_run_behavior (oracle : String → Option (List String)) (country : String)
    (pillar_id : Nat) (s : Store) :
    (PlannerAgent.plannerQuestions oracle = [] →
      reportStatus (PlannerAgent.run oracle country pillar_id s)
        (maxId (s.reports.map Report.id) + 1) = some RStatus.PLAN_FAILED ∧
      (PlannerAgent.run oracle country pillar_id s).questions = s.questions) ∧
    (PlannerAgent.plannerQuestions oracle ≠ [] →
      reportStatus (PlannerAgent.run oracle country pillar_id s)
        (maxId (s.reports.map Report.id) + 1) = some RStatus.PLANNING ∧
      (PlannerAgent.run oracle country pillar_id s).questions =
        s.questions ++ mkQuestions (maxId (s.reports.map Report.id) + 1)
          (maxId (s.questions.map Question.id) + 1) (PlannerAgent.plannerQuestions oracle) ∧
      ∀ q ∈ mkQuestions (maxId (s.reports.map Report.id) + 1)
          (maxId (s.questions.map Question.id) + 1) (PlannerAgent.plannerQuestions oracle),
        q.status = QStatus.PENDING ∧ q.report_id = maxId (s.reports.map Report.id) + 1) := by
  constructor
  · intro hq
    unfold PlannerAgent.run
    rw [hq]
    simp only [List.isEmpty_nil, if_true]
    constructor
    · show ((updR (s.reports ++
          [⟨maxId (s.reports.map Report.id) + 1, country, pillar_id, RStatus.PLANNING⟩])
            (maxId (s.reports.map Report.id) + 1) RStatus.PLAN_FAILED).find?
              (fun x => x.id == maxId (s.reports.map Report.id) + 1)).map Report.status =
        some RStatus.PLAN_FAILED
      apply findR_updR_self
      exact ⟨⟨maxId (s.reports.map Report.id) + 1, country, pillar_id, RStatus.PLANNING⟩,
        List.mem_append_right s.reports (List.mem_cons_self _ _), rfl⟩
    · rfl
  · intro hq
    unfold PlannerAgent.run
    have hne : (PlannerAgent.plannerQuestions oracle).isEmpty = false := by
      cases hl : PlannerAgent.plannerQuestions oracle with
      | nil => exact absurd hl hq
      | cons a as => simp
    simp only [hne, Bool.false_eq_true, if_false]
    refine ⟨?_, rfl, ?_⟩
    · have hfr := @findR_append_fresh s.reports
        ⟨maxId (s.reports.map Report.id) + 1, country, pillar_id, RStatus.PLANNING⟩
        (fun x hx => fresh_report_id x hx)
      exact congrArg (Option.map Report.status) hfr
    · intro q hqmem
      have := mkQuestions_fields q hqmem
      exact ⟨this.1, this.2.1⟩

/-- C3 witness: with the always-succeeding sample oracle on the empty
store, the non-empty branch of the amended Planner theorem yields a
PLANNING report. -/
theorem planner_run_behavior_app :
    reportStatus (PlannerAgent.run planOracleW countryW 3 emptyStore) 1 = some RStatus.PLANNING :=
  ((planner_run_behavior planOracleW countryW 3 emptyStore).2 (by decide)).1

/-- C8: when the oracle call of one taxonomy dimension fails, that
dimension is still processed exactly once (the call log lists every
dimension in order, and the failed dimension appears exactly once in
it, so it is not retried and its failure is not fatal to the remaining
dimensions), and the accumulated question list equals the accumulation
over the other dimensions alone: the failed dimension contributes zero
questions. -/
theorem planner_dimension_failure (oracle : String → Option (List String)) (d : String)
    (hd : d ∈ METHODOLOGY.map Prod.fst) (hfail : oracle d = none) :
    (plannerQuestionsLog oracle).2 = METHODOLOGY.map Prod.fst ∧
    ((plannerQuestionsLog oracle).2).count d = 1 ∧
    PlannerAgent.plannerQuestions oracle =
      concatAll (fun p => PlannerAgent.generate_questions oracle p.1)
        (METHODOLOGY.filter (fun p => !(p.1 == d))) := by
  have hlog : (plannerQuestionsLog oracle).2 = METHODOLOGY.map Prod.fst := by
    unfold plannerQuestionsLog
    rw [foldl_log]
    simp
  refine ⟨hlog, ?_, ?_⟩
  · rw [hlog]
    exact List.count_eq_one_of_mem (by decide) hd
  · rw [plannerQuestions_concat]
    rw [concat_filter]
    intro x hx hpx
    have hxd : x.1 = d := by simpa using hpx
    simp [PlannerAgent.generate_questions, hxd, hfail]

/-- C8 witness: concrete all-failing oracle against the first
METHODOLOGY dimension. -/
theorem planner_dimension_failure_app :
    (plannerQuestionsLog failOracleW).2 = METHODOLOGY.map Prod.fst ∧
    ((plannerQuestionsLog failOracleW).2).count dimW = 1 ∧
    PlannerAgent.plannerQuestions failOracleW =
      concatAll (fun p => PlannerAgent.generate_questions failOracleW p.1)
        (METHODOLOGY.filter (fun p => !(p.1 == dimW))) :=
  planner_dimension_failure failOracleW dimW (by decide) rfl

theorem isEmpty_false_of_ne_nil {α : Type} {l : List α} (h : l ≠ []) : l.isEmpty = false := by
  cases l with
  | nil => exact absurd rfl h
  | cons a as => simp

theorem scoring_run_no_report {oracle : Option ScoreCard} {s : Store}
    (h : get_next_report_for_synthesis s = none) : ScoringAgent.run oracle s = s := by
  unfold ScoringAgent.run
  simp only [h]

theorem scoring_run_empty (oracle : Option ScoreCard) {s : Store} {r : Report}
    (h : get_next_report_for_synthesis s = some r)
    (hev : get_all_evidence_for_report s r.id = []) :
    ScoringAgent.run oracle s = updateReportStatus s r.id RStatus.SCORING_FAILED := by
  unfold ScoringAgent.run
  simp only [h]
  rw [hev]
  simp

theorem scoring_run_review {s : Store} {r : Report} {sc : ScoreCard}
    (h : get_next_report_for_synthesis s = some r)
    (hev : get_all_evidence_for_report s r.id ≠ []) :
    ScoringAgent.run (some sc) s =
      updateReportStatus
        { s with index_scores := s.index_scores ++
            [⟨r.id, r.country_name, sc.overall_weighted_score, sc.score_matrix⟩] }
        r.id RStatus.REVIEW := by
  unfold ScoringAgent.run
  simp only [h]
  rw [isEmpty_false_of_ne_nil hev]
  simp

theorem scoring_run_orfail {s : Store} {r : Report}
    (h : get_next_report_for_synthesis s = some r)
    (hev : get_all_evidence_for_report s r.id ≠ []) :
    ScoringAgent.run none s = updateReportStatus s r.id RStatus.SCORING_FAILED := by
  unfold ScoringAgent.run
  simp only [h]
  rw [isEmpty_false_of_ne_nil hev]
  simp

/-- C5: for a claimed barrier-satisfied report, the Scorer records
exactly one outcome.  With empty evidence the report is marked
SCORING_FAILED and no score row is created; with non-empty evidence and
a successful oracle the score row is persisted and the report is marked
REVIEW; with non-empty evidence and a failed oracle the report is
marked SCORING_FAILED with no score row and no retry. -/
theorem scorer_outcomes (oracle : Option ScoreCard) (s : Store) (r : Report)
    (h : get_next_report_for_synthesis s = some r) :
    (get_all_evidence_for_report s r.id = [] →
      reportStatus (ScoringAgent.run oracle s) r.id = some RStatus.SCORING_FAILED ∧
      (ScoringAgent.run oracle s).index_scores = s.index_scores) ∧
    (∀ sc, oracle = some sc → get_all_evidence_for_report s r.id ≠ [] →
      reportStatus (ScoringAgent.run oracle s) r.id = some RStatus.REVIEW ∧
      (ScoringAgent.run oracle s).index_scores =
        s.index_scores ++ [⟨r.id, r.country_name, sc.overall_weighted_score, sc.score_matrix⟩]) ∧
    (oracle = none → get_all_evidence_for_report s r.id ≠ [] →
      reportStatus (ScoringAgent.run oracle s) r.id = some RStatus.SCORING_FAILED ∧
      (ScoringAgent.run oracle s).index_scores = s.index_scores) := by
  have hmem : r ∈ s.reports := List.mem_of_find?_eq_some h
  have hex : ∃ x ∈ s.reports, x.id = r.id := ⟨r, hmem, rfl⟩
  refine ⟨?_, ?_, ?_⟩
  · intro hev
    rw [scoring_run_empty oracle h hev]
    exact ⟨findR_updR_self hex, rfl⟩
  · intro sc hsc hev
    rw [hsc, scoring_run_review h hev]
    exact ⟨findR_updR_self hex, rfl⟩
  · intro hsc hev
    rw [hsc, scoring_run_orfail h hev]
    exact ⟨findR_updR_self hex, rfl⟩

/-- C5 witness: concrete run on a barrier-satisfied report with a
successful oracle, reaching REVIEW with the persisted score row. -/
theorem scorer_outcomes_app :
    reportStatus (ScoringAgent.run (some cardW) sC5) 1 = some RStatus.REVIEW ∧
    (ScoringAgent.run (some cardW) sC5).index_scores =
      sC5.index_scores ++ [⟨1, "Atlantis", "82", "matrix"⟩] :=
  (scorer_outcomes (some cardW) sC5 ⟨1, "Atlantis", 3, RStatus.RESEARCHING⟩
    (by rfl)).2.1 cardW rfl (by decide)

theorem narrative_run_no_review {oracle : Option String} {s : Store}
    (h : NarrativeAgent.findReviewReport s = none) : NarrativeAgent.run oracle s = s := by
  unfold NarrativeAgent.run
  simp only [h]

theorem narrative_run_stuck {oracle : Option String} {s : Store} {r : Report}
    (h : NarrativeAgent.findReviewReport s = some r)
    (hguard : (!(get_all_evidence_for_report s r.id).isEmpty &&
      (NarrativeAgent.findScore s r.id).isSome) = false) :
    NarrativeAgent.run oracle s = s := by
  unfold NarrativeAgent.run
  simp only [h]
  rw [hguard]
  simp

theorem narrative_run_success {s : Store} {r : Report}
    (h : NarrativeAgent.findReviewReport s = some r)
    (hguard : (!(get_all_evidence_for_report s r.id).isEmpty &&
      (NarrativeAgent.findScore s r.id).isSome) = true) (text : String) :
    NarrativeAgent.run (some text) s =
      updateReportStatus (upsertNarrative s r.id text) r.id RStatus.COMPLETE := by
  unfold NarrativeAgent.run
  simp only [h]
  rw [hguard]
  simp

theorem narrator_none_id (s : Store) : NarrativeAgent.run none s = s := by
  cases hfind : NarrativeAgent.findReviewReport s with
  | none => exact narrative_run_no_review hfind
  | some r =>
    by_cases hg : (!(get_all_evidence_for_report s r.id).isEmpty &&
        (NarrativeAgent.findScore s r.id).isSome) = true
    · unfold NarrativeAgent.run
      simp only [hfind]
      rw [hg]
      simp
    · unfold NarrativeAgent.run
      simp only [hfind]
      rw [Bool.not_eq_true] at hg
      rw [hg]
      simp

/-- C6: for a claimed REVIEW report with evidence and a score card
present, a successful narration upserts the narrative keyed by the
report id and marks the report COMPLETE; a failed narration leaves the
store, and hence the report status REVIEW, entirely unchanged; and a
subsequent successful narration after a failed one still reaches
COMPLETE (idempotent recovery). -/
theorem narrator_recovery (s : Store) (r : Report)
    (h : NarrativeAgent.findReviewReport s = some r)
    (hev : get_all_evidence_for_report s r.id ≠ [])
    (hsc : (NarrativeAgent.findScore s r.id).isSome = true) :
    (∀ text, narrativeText (NarrativeAgent.run (some text) s) r.id = some text ∧
      reportStatus (NarrativeAgent.run (some text) s) r.id = some RStatus.COMPLETE) ∧
    (NarrativeAgent.run none s = s ∧ r.status = RStatus.REVIEW) ∧
    (∀ text, reportStatus (NarrativeAgent.run (some text) (NarrativeAgent.run none s)) r.id =
      some RStatus.COMPLETE) := by
  have hmem : r ∈ s.reports := List.mem_of_find?_eq_some h
  have hstat : r.status = RStatus.REVIEW := by
    have := List.find?_some h
    simpa using this
  have hguard : (!(get_all_evidence_for_report s r.id).isEmpty &&
      (NarrativeAgent.findScore s r.id).isSome) = true := by
    rw [isEmpty_false_of_ne_nil hev, hsc]
    rfl
  have hsome : ∀ text, narrativeText (NarrativeAgent.run (some text) s) r.id = some text ∧
      reportStatus (NarrativeAgent.run (some text) s) r.id = some RStatus.COMPLETE := by
    intro text
    rw [narrative_run_success h hguard text]
    constructor
    · exact findN_upsN s.published_content r.id text
    · exact findR_updR_self ⟨r, hmem, rfl⟩
  refine ⟨hsome, ⟨narrator_none_id s, hstat⟩, ?_⟩
  intro text
  rw [narrator_none_id s]
  exact (hsome text).2

/-- C6 witness: concrete REVIEW report narrated after a failed attempt,
checking the upserted text and the COMPLETE status. -/
theorem narrator_recovery_app :
    narrativeText (NarrativeAgent.run (some textW) sC6) 1 = some textW ∧
    reportStatus (NarrativeAgent.run (some textW) sC6) 1 = some RStatus.COMPLETE ∧
    reportStatus (NarrativeAgent.run (some textW) (NarrativeAgent.run none sC6)) 1 =
      some RStatus.COMPLETE := by
  have h := narrator_recovery sC6 ⟨1, "Atlantis", 3, RStatus.REVIEW⟩ (by rfl) (by decide) (by rfl)
  exact ⟨(h.1 textW).1, (h.1 textW).2, h.2.2 textW⟩

theorem planner_scores (oracle : String → Option (List String)) (country : String)
    (pillar_id : Nat) (s : Store) :
    (PlannerAgent.run oracle country pillar_id s).index_scores = s.index_scores := by
  unfold PlannerAgent.run
  by_cases hq : (PlannerAgent.plannerQuestions oracle).isEmpty = true
  · simp only [hq, if_true]
    rfl
  · rw [Bool.not_eq_true] at hq
    simp only [hq, Bool.false_eq_true, if_false]
    rfl

theorem planner_reports_cases (oracle : String → Option (List String)) (country : String)
    (pillar_id : Nat) (s : Store) :
    (PlannerAgent.run oracle country pillar_id s).reports =
      updR (s.reports ++ [⟨maxId (s.reports.map Report.id) + 1, country, pillar_id, RStatus.PLANNING⟩])
        (maxId (s.reports.map Report.id) + 1) RStatus.PLAN_FAILED ∨
    (PlannerAgent.run oracle country pillar_id s).reports =
      s.reports ++ [⟨maxId (s.reports.map Report.id) + 1, country, pillar_id, RStatus.PLANNING⟩] := by
  unfold PlannerAgent.run
  by_cases hq : (PlannerAgent.plannerQuestions oracle).isEmpty = true
  · simp only [hq, if_true]
    exact Or.inl rfl
  · rw [Bool.not_eq_true] at hq
    simp only [hq, Bool.false_eq_true, if_false]
    exact Or.inr rfl

theorem planner_questions_cases (oracle : String → Option (List String)) (country : String)
    (pillar_id : Nat) (s : Store) :
    (PlannerAgent.run oracle country pillar_id s).questions = s.questions ∨
    (PlannerAgent.run oracle country pillar_id s).questions =
      s.questions ++ mkQuestions (maxId (s.reports.map Report.id) + 1)
        (maxId (s.questions.map Question.id) + 1) (PlannerAgent.plannerQuestions oracle) := by
  unfold PlannerAgent.run
  by_cases hq : (PlannerAgent.plannerQuestions oracle).isEmpty = true
  · simp only [hq, if_true]
    exact Or.inl rfl
  · rw [Bool.not_eq_true] at hq
    simp only [hq, Bool.false_eq_true, if_false]
    exact Or.inr rfl

theorem planner_reportStatus_pres {oracle : String → Option (List String)} {country : String}
    {pillar_id : Nat} {s : Store} {rid : Nat} {st : RStatus}
    (h : reportStatus s rid = some st) :
    reportStatus (PlannerAgent.run oracle country pillar_id s) rid = some st := by
  obtain ⟨row, hfind, hstat⟩ := Option.map_eq_some'.mp h
  have hrowid : row.id = rid := by
    have := List.find?_some hfind
    simpa using this
  have hrowmem : row ∈ s.reports := List.mem_of_find?_eq_some hfind
  have hle : rid ≤ maxId (s.reports.map Report.id) :=
    hrowid ▸ le_maxId (List.mem_map_of_mem Report.id hrowmem)
  have hne : rid ≠ maxId (s.reports.map Report.id) + 1 := by omega
  rcases planner_reports_cases oracle country pillar_id s with hc | hc
  · show ((PlannerAgent.run oracle country pillar_id s).reports.find?
      (fun x => x.id == rid)).map Report.status = some st
    rw [hc, findR_updR_ne hne, find?_append_left_some hfind]
    simp [hstat]
  · show ((PlannerAgent.run oracle country pillar_id s).reports.find?
      (fun x => x.id == rid)).map Report.status = some st
    rw [hc, find?_append_left_some hfind]
    simp [hstat]

theorem resolve_reports (env : GEnv) (q : Question) (s : Store) :
    (GathererAgent.resolve env q s).reports = s.reports := by
  unfold GathererAgent.resolve
  cases env.find_evidence q.question with
  | none => rfl
  | some ev =>
    by_cases hs : env.save_ok q.id
    · simp only [hs, if_true]
      rfl
    · simp only [hs, Bool.false_eq_true, if_false]
      rfl

theorem resolve_scores (env : GEnv) (q : Question) (s : Store) :
    (GathererAgent.resolve env q s).index_scores = s.index_scores := by
  unfold GathererAgent.resolve
  cases env.find_evidence q.question with
  | none => rfl
  | some ev =>
    by_cases hs : env.save_ok q.id
    · simp only [hs, if_true]
      rfl
    · simp only [hs, Bool.false_eq_true, if_false]
      rfl

theorem resolve_questions_mem (env : GEnv) (q : Question) (s : Store) :
    ∀ q' ∈ (GathererAgent.resolve env q s).questions, ∃ x ∈ s.questions,
      q'.report_id = x.report_id ∧ (q'.status = x.status ∨ q'.status ≠ QStatus.PENDING) := by
  intro q' hq'
  have key : ∀ (st : QStatus), st ≠ QStatus.PENDING → q' ∈ updQ s.questions q.id st →
      ∃ x ∈ s.questions, q'.report_id = x.report_id ∧
        (q'.status = x.status ∨ q'.status ≠ QStatus.PENDING) := by
    intro st hst hmem
    obtain ⟨x, hx, _, hrep, hor⟩ := updQ_mem q' hmem
    rcases hor with heq | heq
    · exact ⟨x, hx, hrep, Or.inl heq⟩
    · exact ⟨x, hx, hrep, Or.inr (heq ▸ hst)⟩
  unfold GathererAgent.resolve at hq'
  cases hfe : env.find_evidence q.question with
  | none =>
    rw [hfe] at hq'
    exact key QStatus.RESEARCH_FAILED (by simp) hq'
  | some ev =>
    rw [hfe] at hq'
    by_cases hs : env.save_ok q.id
    · simp only [hs, if_true] at hq'
      exact key QStatus.COMPLETE (by simp) hq'
    · simp only [hs, Bool.false_eq_true, if_false] at hq'
      exact key QStatus.SAVE_FAILED (by simp) hq'

theorem iteration_reports (env : GEnv) (s : Store) :
    (GathererAgent.iteration env s).reports = s.reports := by
  cases hcl : (get_next_unanswered_question s).1 with
  | none => rw [iteration_eq_none hcl, claim_store_eq_none hcl]
  | some q =>
    rw [iteration_eq_some hcl, resolve_reports]
    rfl

theorem iteration_scores (env : GEnv) (s : Store) :
    (GathererAgent.iteration env s).index_scores = s.index_scores := by
  cases hcl : (get_next_unanswered_question s).1 with
  | none => rw [iteration_eq_none hcl, claim_store_eq_none hcl]
  | some q =>
    rw [iteration_eq_some hcl, resolve_scores]
    rfl

theorem iteration_questions_mem (env : GEnv) (s : Store) :
    ∀ q' ∈ (GathererAgent.iteration env s).questions, ∃ x ∈ s.questions,
      q'.report_id = x.report_id ∧ (q'.status = x.status ∨ q'.status ≠ QStatus.PENDING) := by
  intro q' hq'
  cases hcl : (get_next_unanswered_question s).1 with
  | none =>
    rw [iteration_eq_none hcl, claim_store_eq_none hcl] at hq'
    exact ⟨q', hq', rfl, Or.inl rfl⟩
  | some q =>
    rw [iteration_eq_some hcl] at hq'
    obtain ⟨x, hx, hrep, hor⟩ := resolve_questions_mem env q (get_next_unanswered_question s).2 q' hq'
    obtain ⟨x0, hx0, _, hrep0, hst0⟩ := claimNextQ_snd_mem x hx
    rcases hor with heq | hne
    · exact ⟨x0, hx0, hrep.trans hrep0, Or.inl (heq.trans hst0)⟩
    · exact ⟨x0, hx0, hrep.trans hrep0, Or.inr hne⟩

theorem scoring_questions (oracle : Option ScoreCard) (s : Store) :
    (ScoringAgent.run oracle s).questions = s.questions := by
  cases hfind : get_next_report_for_synthesis s with
  | none => rw [scoring_run_no_report hfind]
  | some r =>
    by_cases hev : get_all_evidence_for_report s r.id = []
    · rw [scoring_run_empty oracle hfind hev]
      rfl
    · cases oracle with
      | none =>
        rw [scoring_run_orfail hfind hev]
        rfl
      | some sc =>
        rw [scoring_run_review hfind hev]
        rfl

theorem narrator_scores (oracle : Option String) (s : Store) :
    (NarrativeAgent.run oracle s).index_scores = s.index_scores := by
  cases hfind : NarrativeAgent.findReviewReport s with
  | none => rw [narrative_run_no_review hfind]
  | some r =>
    by_cases hg : (!(get_all_evidence_for_report s r.id).isEmpty &&
        (NarrativeAgent.findScore s r.id).isSome) = true
    · cases oracle with
      | none => rw [narrator_none_id]
      | some text =>
        rw [narrative_run_success hfind hg text]
        rfl
    · have hg2 : (!(get_all_evidence_for_report s r.id).isEmpty &&
          (NarrativeAgent.findScore s r.id).isSome) = false := by
        rwa [Bool.not_eq_true] at hg
      rw [narrative_run_stuck hfind hg2]

theorem narrator_questions (oracle : Option String) (s : Store) :
    (NarrativeAgent.run oracle s).questions = s.questions := by
  cases hfind : NarrativeAgent.findReviewReport s with
  | none => rw [narrative_run_no_review hfind]
  | some r =>
    by_cases hg : (!(get_all_evidence_for_report s r.id).isEmpty &&
        (NarrativeAgent.findScore s r.id).isSome) = true
    · cases oracle with
      | none => rw [narrator_none_id]
      | some text =>
        rw [narrative_run_success hfind hg text]
        rfl
    · have hg2 : (!(get_all_evidence_for_report s r.id).isEmpty &&
          (NarrativeAgent.findScore s r.id).isSome) = false := by
        rwa [Bool.not_eq_true] at hg
      rw [narrative_run_stuck hfind hg2]

theorem updR_transition {l : List Report} (hnodup : (l.map Report.id).Nodup) {r : Report}
    (hr : r ∈ l) (stN : RStatus) (rid : Nat) (st st' : RStatus)
    (h1 : (l.find? (fun x => x.id == rid)).map Report.status = some st)
    (h2 : ((updR l r.id stN).find? (fun x => x.id == rid)).map Report.status = some st') :
    st' = st ∨ (st = r.status ∧ st' = stN) := by
  by_cases hid : rid = r.id
  · subst hid
    have hfr := findR_mem_nodup hnodup hr
    rw [hfr] at h1
    have hst : r.status = st := by simpa using h1
    rw [@findR_updR_self l r.id stN ⟨r, hr, rfl⟩] at h2
    have hst' : stN = st' := by simpa using h2
    exact Or.inr ⟨hst.symm, hst'.symm⟩
  · rw [findR_updR_ne hid, h1] at h2
    have : st = st' := by simpa using h2
    exact Or.inl this.symm

theorem step_scores_inv {s s' : Store} (hbar : scoresBarrier s) (hval : scoresValid s)
    (hstep : Step s s') : scoresBarrier s' ∧ scoresValid s' := by
  cases hstep with
  | plan oracle country pillar_id =>
    constructor
    · intro sc hsc q' hq' hrep
      rw [planner_scores oracle country pillar_id s] at hsc
      rcases planner_questions_cases oracle country pillar_id s with hq | hq
      · rw [hq] at hq'
        exact hbar sc hsc q' hq' hrep
      · rw [hq] at hq'
        rcases List.mem_append.mp hq' with hmem | hmem
        · exact hbar sc hsc q' hmem hrep
        · exfalso
          have hfresh := (mkQuestions_fields q' hmem).2.1
          obtain ⟨r0, hr0, hr0id⟩ := hval sc hsc
          have hle : sc.report_id ≤ maxId (s.reports.map Report.id) :=
            hr0id ▸ le_maxId (List.mem_map_of_mem Report.id hr0)
          rw [hfresh] at hrep
          omega
    · intro sc hsc
      rw [planner_scores oracle country pillar_id s] at hsc
      obtain ⟨r0, hr0, hr0id⟩ := hval sc hsc
      rcases planner_reports_cases oracle country pillar_id s with hc | hc
      · rw [hc]
        have hr0' : r0 ∈ s.reports ++
            [⟨maxId (s.reports.map Report.id) + 1, country, pillar_id, RStatus.PLANNING⟩] :=
          List.mem_append_left _ hr0
        obtain ⟨r', hr', hid⟩ := updR_mem_rev _ (maxId (s.reports.map Report.id) + 1)
          RStatus.PLAN_FAILED r0 hr0'
        exact ⟨r', hr', hid.trans hr0id⟩
      · rw [hc]
        exact ⟨r0, List.mem_append_left _ hr0, hr0id⟩
  | gather env =>
    constructor
    · intro sc hsc q' hq' hrep
      rw [iteration_scores env s] at hsc
      obtain ⟨x0, hx0, hrep0, hst0⟩ := iteration_questions_mem env s q' hq'
      rcases hst0 with heq | hne
      · rw [heq]
        exact hbar sc hsc x0 hx0 (hrep0 ▸ hrep)
      · exact hne
    · intro sc hsc
      rw [iteration_scores env s] at hsc
      obtain ⟨r0, hr0, hid⟩ := hval sc hsc
      rw [iteration_reports env s]
      exact ⟨r0, hr0, hid⟩
  | score oracle =>
    cases hfind : get_next_report_for_synthesis s with
    | none =>
      rw [scoring_run_no_report hfind]
      exact ⟨hbar, hval⟩
    | some r =>
      have hmem := List.mem_of_find?_eq_some hfind
      have hpred := List.find?_some hfind
      have hbarR : barrierSatisfied s r.id = true := by
        rw [Bool.and_eq_true] at hpred
        exact hpred.2
      by_cases hev : get_all_evidence_for_report s r.id = []
      · rw [scoring_run_empty oracle hfind hev]
        constructor
        · intro sc hsc q' hq' hrep
          exact hbar sc hsc q' hq' hrep
        · intro sc hsc
          obtain ⟨r0, hr0, hid⟩ := hval sc hsc
          obtain ⟨r', hr', hid2⟩ := updR_mem_rev s.reports r.id RStatus.SCORING_FAILED r0 hr0
          exact ⟨r', hr', hid2.trans hid⟩
      · cases oracle with
        | none =>
          rw [scoring_run_orfail hfind hev]
          constructor
          · intro sc hsc q' hq' hrep
            exact hbar sc hsc q' hq' hrep
          · intro sc hsc
            obtain ⟨r0, hr0, hid⟩ := hval sc hsc
            obtain ⟨r', hr', hid2⟩ := updR_mem_rev s.reports r.id RStatus.SCORING_FAILED r0 hr0
            exact ⟨r', hr', hid2.trans hid⟩
        | some sc0 =>
          rw [scoring_run_review hfind hev]
          constructor
          · intro sc hsc q' hq' hrep
            have hsc2 : sc ∈ s.index_scores ++
                [⟨r.id, r.country_name, sc0.overall_weighted_score, sc0.score_matrix⟩] := hsc
            rcases List.mem_append.mp hsc2 with hold | hnew
            · exact hbar sc hold q' hq' hrep
            · have heq := List.eq_of_mem_singleton hnew
              rw [heq] at hrep
              have hrep2 : q'.report_id = r.id := hrep
              exact barrier_iff.mp hbarR q' hq' hrep2
          · intro sc hsc
            have hsc2 : sc ∈ s.index_scores ++
                [⟨r.id, r.country_name, sc0.overall_weighted_score, sc0.score_matrix⟩] := hsc
            rcases List.mem_append.mp hsc2 with hold | hnew
            · obtain ⟨r0, hr0, hid⟩ := hval sc hold
              obtain ⟨r', hr', hid2⟩ := updR_mem_rev s.reports r.id RStatus.REVIEW r0 hr0
              exact ⟨r', hr', hid2.trans hid⟩
            · have heq := List.eq_of_mem_singleton hnew
              obtain ⟨r', hr', hid2⟩ := updR_mem_rev s.reports r.id RStatus.REVIEW r hmem
              refine ⟨r', hr', ?_⟩
              rw [heq]
              exact hid2
  | narrate oracle =>
    cases hfind : NarrativeAgent.findReviewReport s with
    | none =>
      rw [narrative_run_no_review hfind]
      exact ⟨hbar, hval⟩
    | some r =>
      by_cases hg : (!(get_all_evidence_for_report s r.id).isEmpty &&
          (NarrativeAgent.findScore s r.id).isSome) = true
      · cases oracle with
        | none =>
          rw [narrator_none_id]
          exact ⟨hbar, hval⟩
        | some text =>
          rw [narrative_run_success hfind hg text]
          constructor
          · intro sc hsc q' hq' hrep
            exact hbar sc hsc q' hq' hrep
          · intro sc hsc
            obtain ⟨r0, hr0, hid⟩ := hval sc hsc
            obtain ⟨r', hr', hid2⟩ := updR_mem_rev s.reports r.id RStatus.COMPLETE r0 hr0
            exact ⟨r', hr', hid2.trans hid⟩
      · have hg2 : (!(get_all_evidence_for_report s r.id).isEmpty &&
            (NarrativeAgent.findScore s r.id).isSome) = false := by
          rwa [Bool.not_eq_true] at hg
        rw [narrative_run_stuck hfind hg2]
        exact ⟨hbar, hval⟩

theorem status_refl_mono {s : Store} : ∀ (rid : Nat) (st st' : RStatus),
    reportStatus s rid = some st → reportStatus s rid = some st' →
    st' = st ∨ edgeOk st st' = true := by
  intro rid st st' h1 h2
  rw [h1] at h2
  exact Or.inl (Option.some.inj h2).symm

/-- C2: the Scorer creates a Score only behind the fan-in barrier.
First part: any stage operation that adds a score row for a report does
so only when, in the pre-state, no question of that report has status
PENDING (so, the statuses forming a four-value enumeration, every such
question is COMPLETE, RESEARCH_FAILED or SAVE_FAILED).  Second part: in
every store reachable by stage operations, every score row coexists
only with non-PENDING questions of its report, for any interleaving of
Gatherer completions. -/
theorem scorer_barrier :
    (∀ s s' sc, Step s s' → sc ∈ s'.index_scores → sc ∉ s.index_scores →
      ∀ q ∈ s.questions, q.report_id = sc.report_id → q.status ≠ QStatus.PENDING) ∧
    (∀ s, Reachable s → scoresBarrier s) := by
  constructor
  · intro s s' sc hstep hin hout
    cases hstep with
    | plan oracle country pillar_id =>
      rw [planner_scores oracle country pillar_id s] at hin
      exact absurd hin hout
    | gather env =>
      rw [iteration_scores env s] at hin
      exact absurd hin hout
    | narrate oracle =>
      rw [narrator_scores oracle s] at hin
      exact absurd hin hout
    | score oracle =>
      cases hfind : get_next_report_for_synthesis s with
      | none =>
        rw [scoring_run_no_report hfind] at hin
        exact absurd hin hout
      | some r =>
        have hpred := List.find?_some hfind
        have hbarR : barrierSatisfied s r.id = true := by
          rw [Bool.and_eq_true] at hpred
          exact hpred.2
        by_cases hev : get_all_evidence_for_report s r.id = []
        · rw [scoring_run_empty oracle hfind hev] at hin
          exact absurd hin hout
        · cases oracle with
          | none =>
            rw [scoring_run_orfail hfind hev] at hin
            exact absurd hin hout
          | some sc0 =>
            rw [scoring_run_review hfind hev] at hin
            have hin2 : sc ∈ s.index_scores ++
                [⟨r.id, r.country_name, sc0.overall_weighted_score, sc0.score_matrix⟩] := hin
            rcases List.mem_append.mp hin2 with hold | hnew
            · exact absurd hold hout
            · have heq := List.eq_of_mem_singleton hnew
              intro q hq hrep
              rw [heq] at hrep
              have hrep2 : q.report_id = r.id := hrep
              exact barrier_iff.mp hbarR q hq hrep2
  · intro s h
    have hinv : scoresBarrier s ∧ scoresValid s := by
      induction h with
      | init =>
        exact ⟨fun sc hsc => absurd hsc (List.not_mem_nil sc),
          fun sc hsc => absurd hsc (List.not_mem_nil sc)⟩
      | step s0 s1 hre hstep ih => exact step_scores_inv ih.1 ih.2 hstep
    exact hinv.1

/-- C2 witness: the concrete scoring step on a barrier-satisfied store
adds the score row, and the theorem yields that the owned COMPLETE
question was indeed not PENDING. -/
theorem scorer_barrier_app :
    (⟨1, 1, "What protections exist", QStatus.COMPLETE, true⟩ : Question).status ≠
      QStatus.PENDING :=
  scorer_barrier.1 sC5 (ScoringAgent.run (some cardW) sC5)
    ⟨1, "Atlantis", "82", "matrix"⟩ (Step.score sC5 (some cardW)) (by decide) (by decide)
    ⟨1, 1, "What protections exist", QStatus.COMPLETE, true⟩ (by decide) rfl

/-- C7: every stage operation moves every report status along the
section 4.6 state diagram only.  Under distinct report ids, any report
status observed before and after one stage operation is either
unchanged or one allowed edge (PLANNING to RESEARCHING or PLAN_FAILED,
RESEARCHING to REVIEW or SCORING_FAILED, REVIEW to COMPLETE); since
PLAN_FAILED and SCORING_FAILED have no outgoing edge they are terminal,
and no operation skips or reverses a stage.  Distinctness of report ids
is itself preserved, so the property holds along every operation
sequence. -/
theorem report_status_monotonic (s s' : Store) (hstep : Step s s')
    (hnodup : (s.reports.map Report.id).Nodup) :
    (∀ rid st st', reportStatus s rid = some st → reportStatus s' rid = some st' →
      st' = st ∨ edgeOk st st' = true) ∧
    (s'.reports.map Report.id).Nodup := by
  cases hstep with
  | plan oracle country pillar_id =>
    constructor
    · intro rid st st' h1 h2
      have hpres := @planner_reportStatus_pres oracle country pillar_id s rid st h1
      rw [hpres] at h2
      exact Or.inl (Option.some.inj h2).symm
    · rcases planner_reports_cases oracle country pillar_id s with hc | hc
      · rw [hc, updR_ids, List.map_append]
        exact nodup_snoc hnodup (maxId_succ_not_mem _)
      · rw [hc, List.map_append]
        exact nodup_snoc hnodup (maxId_succ_not_mem _)
  | gather env =>
    have hrep := iteration_reports env s
    constructor
    · intro rid st st' h1 h2
      have heqs : reportStatus (GathererAgent.iteration env s) rid = reportStatus s rid := by
        unfold reportStatus
        rw [hrep]
      rw [heqs, h1] at h2
      exact Or.inl (Option.some.inj h2).symm
    · rw [hrep]
      exact hnodup
  | score oracle =>
    cases hfind : get_next_report_for_synthesis s with
    | none =>
      rw [scoring_run_no_report hfind]
      exact ⟨status_refl_mono, hnodup⟩
    | some r =>
      have hmem := List.mem_of_find?_eq_some hfind
      have hpred := List.find?_some hfind
      have hres : r.status = RStatus.RESEARCHING := by
        rw [Bool.and_eq_true] at hpred
        simpa using hpred.1
      have main : ∀ (stN : RStatus), edgeOk RStatus.RESEARCHING stN = true →
          ∀ rid st st', reportStatus s rid = some st →
          ((updR s.reports r.id stN).find? (fun x => x.id == rid)).map Report.status = some st' →
          st' = st ∨ edgeOk st st' = true := by
        intro stN hedge rid st st' h1 h2
        rcases updR_transition hnodup hmem stN rid st st' h1 h2 with heq | ⟨hst, hst'⟩
        · exact Or.inl heq
        · right
          rw [hst, hres, hst']
          exact hedge
      by_cases hev : get_all_evidence_for_report s r.id = []
      · rw [scoring_run_empty oracle hfind hev]
        refine ⟨fun rid st st' h1 h2 => main RStatus.SCORING_FAILED rfl rid st st' h1 h2, ?_⟩
        show ((updR s.reports r.id RStatus.SCORING_FAILED).map Report.id).Nodup
        rw [updR_ids]
        exact hnodup
      · cases oracle with
        | none =>
          rw [scoring_run_orfail hfind hev]
          refine ⟨fun rid st st' h1 h2 => main RStatus.SCORING_FAILED rfl rid st st' h1 h2, ?_⟩
          show ((updR s.reports r.id RStatus.SCORING_FAILED).map Report.id).Nodup
          rw [updR_ids]
          exact hnodup
        | some sc =>
          rw [scoring_run_review hfind hev]
          refine ⟨fun rid st st' h1 h2 => main RStatus.REVIEW rfl rid st st' h1 h2, ?_⟩
          show ((updR s.reports r.id RStatus.REVIEW).map Report.id).Nodup
          rw [updR_ids]
          exact hnodup
  | narrate oracle =>
    cases hfind : NarrativeAgent.findReviewReport s with
    | none =>
      rw [narrative_run_no_review hfind]
      exact ⟨status_refl_mono, hnodup⟩
    | some r =>
      have hmem := List.mem_of_find?_eq_some hfind
      have hrev : r.status = RStatus.REVIEW := by
        simpa using List.find?_some hfind
      by_cases hg : (!(get_all_evidence_for_report s r.id).isEmpty &&
          (NarrativeAgent.findScore s r.id).isSome) = true
      · cases oracle with
        | none =>
          rw [narrator_none_id]
          exact ⟨status_refl_mono, hnodup⟩
        | some text =>
          rw [narrative_run_success hfind hg text]
          constructor
          · intro rid st st' h1 h2
            rcases updR_transition hnodup hmem RStatus.COMPLETE rid st st' h1 h2 with heq | ⟨hst, hst'⟩
            · exact Or.inl heq
            · right
              rw [hst, hrev, hst']
              rfl
          · show ((updR s.reports r.id RStatus.COMPLETE).map Report.id).Nodup
            rw [updR_ids]
            exact hnodup
      · have hg2 : (!(get_all_evidence_for_report s r.id).isEmpty &&
            (NarrativeAgent.findScore s r.id).isSome) = false := by
          rwa [Bool.not_eq_true] at hg
        rw [narrative_run_stuck hfind hg2]
        exact ⟨status_refl_mono, hnodup⟩

/-- C7 witness: the concrete scoring step moves the sample RESEARCHING
report along the RESEARCHING-to-REVIEW edge. -/
theorem report_status_monotonic_app :
    RStatus.REVIEW = RStatus.RESEARCHING ∨ edgeOk RStatus.RESEARCHING RStatus.REVIEW = true :=
  (report_status_monotonic sC5 (ScoringAgent.run (some cardW) sC5)
    (Step.score sC5 (some cardW)) (by decide)).1 1 RStatus.RESEARCHING RStatus.REVIEW
    (by rfl) (by rfl)

/-- C10: the Scorer persists the Score row strictly before the REVIEW
status update of the same run, and no other stage operation creates a
REVIEW report or removes a score row; hence the invariant that every
report observed in status REVIEW has an associated score row is
preserved by every stage operation and holds in every reachable store. -/
theorem review_implies_score :
    (∀ s s', reviewHasScore s → Step s s' → reviewHasScore s') ∧
    (∀ s, Reachable s → reviewHasScore s) := by
  have pres : ∀ s s', reviewHasScore s → Step s s' → reviewHasScore s' := by
    intro s s' hinv hstep
    cases hstep with
    | plan oracle country pillar_id =>
      intro r' hr' hrev
      rw [planner_scores oracle country pillar_id s]
      rcases planner_reports_cases oracle country pillar_id s with hc | hc
      · rw [hc] at hr'
        obtain ⟨r0, hr0, hor⟩ := updR_shape _ _ _ r' hr'
        rcases hor with rfl | ⟨heq, hid⟩
        · rcases List.mem_append.mp hr0 with hl | hsing
          · exact hinv r' hl hrev
          · exfalso
            have hnew := List.eq_of_mem_singleton hsing
            rw [hnew] at hrev
            simp at hrev
        · exfalso
          rw [heq] at hrev
          simp at hrev
      · rw [hc] at hr'
        rcases List.mem_append.mp hr' with hl | hsing
        · exact hinv r' hl hrev
        · exfalso
          have hnew := List.eq_of_mem_singleton hsing
          rw [hnew] at hrev
          simp at hrev
    | gather env =>
      intro r' hr' hrev
      rw [iteration_scores env s]
      rw [iteration_reports env s] at hr'
      exact hinv r' hr' hrev
    | score oracle =>
      cases hfind : get_next_report_for_synthesis s with
      | none =>
        rw [scoring_run_no_report hfind]
        exact hinv
      | some r =>
        have hmem := List.mem_of_find?_eq_some hfind
        by_cases hev : get_all_evidence_for_report s r.id = []
        · rw [scoring_run_empty oracle hfind hev]
          intro r' hr' hrev
          obtain ⟨r0, hr0, hor⟩ := updR_shape s.reports r.id RStatus.SCORING_FAILED r' hr'
          rcases hor with rfl | ⟨heq, hid⟩
          · exact hinv r' hr0 hrev
          · exfalso
            rw [heq] at hrev
            simp at hrev
        · cases oracle with
          | none =>
            rw [scoring_run_orfail hfind hev]
            intro r' hr' hrev
            obtain ⟨r0, hr0, hor⟩ := updR_shape s.reports r.id RStatus.SCORING_FAILED r' hr'
            rcases hor with rfl | ⟨heq, hid⟩
            · exact hinv r' hr0 hrev
            · exfalso
              rw [heq] at hrev
              simp at hrev
          | some sc0 =>
            rw [scoring_run_review hfind hev]
            intro r' hr' hrev
            obtain ⟨r0, hr0, hor⟩ := updR_shape s.reports r.id RStatus.REVIEW r' hr'
            rcases hor with rfl | ⟨heq, hid⟩
            · obtain ⟨sc, hsc, hscid⟩ := hinv r' hr0 hrev
              exact ⟨sc, List.mem_append_left _ hsc, hscid⟩
            · refine ⟨⟨r.id, r.country_name, sc0.overall_weighted_score, sc0.score_matrix⟩,
                List.mem_append_right _ (List.mem_cons_self _ _), ?_⟩
              show r.id = r'.id
              rw [heq]
              exact hid.symm
    | narrate oracle =>
      cases hfind : NarrativeAgent.findReviewReport s with
      | none =>
        rw [narrative_run_no_review hfind]
        exact hinv
      | some r =>
        by_cases hg : (!(get_all_evidence_for_report s r.id).isEmpty &&
            (NarrativeAgent.findScore s r.id).isSome) = true
        · cases oracle with
          | none =>
            rw [narrator_none_id]
            exact hinv
          | some text =>
            rw [narrative_run_success hfind hg text]
            intro r' hr' hrev
            obtain ⟨r0, hr0, hor⟩ := updR_shape s.reports r.id RStatus.COMPLETE r' hr'
            rcases hor with rfl | ⟨heq, hid⟩
            · exact hinv r' hr0 hrev
            · exfalso
              rw [heq] at hrev
              simp at hrev
        · have hg2 : (!(get_all_evidence_for_report s r.id).isEmpty &&
              (NarrativeAgent.findScore s r.id).isSome) = false := by
            rwa [Bool.not_eq_true] at hg
          rw [narrative_run_stuck hfind hg2]
          exact hinv
  refine ⟨pres, ?_⟩
  intro s h
  induction h with
  | init => intro r hr hrev; exact absurd hr (List.not_mem_nil r)
  | step s0 s1 hre hstep ih => exact pres s0 s1 ih hstep

/-- C10 witness: the concrete narration step preserves the invariant on
a store whose REVIEW report already has its score row. -/
theorem review_implies_score_app :
    reviewHasScore (NarrativeAgent.run (some textW) sC6) :=
  review_implies_score.1 sC6 (NarrativeAgent.run (some textW) sC6)
    (by unfold reviewHasScore; decide) (Step.narrate sC6 (some textW))

end Orion
